import Mathlib

/-!
Verification development for the librpc object model and its WebSocket
transport.

The object-model API is declared in include/rpc/object.h; the functions
below embed those operations over an explicit inductive value type.  Where
only the declaration and its documentation exist in the repository, the
definition is modelled from the specification and the header documentation,
and its doc comment says so.  The WebSocket transport functions embed the
code of src/transport/ws.c.
-/

namespace LibRPC

/-- Three-way comparison on integers: -1 when a < b, 1 when b < a, else 0. -/
def icmpInt (a b : Int) : Int :=
  if a < b then -1 else if b < a then 1 else 0

/-- Three-way comparison on naturals: -1 when a < b, 1 when b < a, else 0. -/
def icmpNat (a b : Nat) : Int :=
  if a < b then -1 else if b < a then 1 else 0

/-- Lexicographic three-way comparison of character sequences, by code point. -/
def lexCmp : List Char → List Char → Int
  | [], [] => 0
  | [], _ :: _ => -1
  | _ :: _, [] => 1
  | a :: as, b :: bs =>
    if a.toNat < b.toNat then -1
    else if b.toNat < a.toNat then 1
    else lexCmp as bs

/-- Lexicographic three-way comparison of strings (the natural string order). -/
def scmp (s t : String) : Int := lexCmp s.data t.data

/-- Lexicographic three-way comparison of byte sequences. -/
def natListCmp : List Nat → List Nat → Int
  | [], [] => 0
  | [], _ :: _ => -1
  | _ :: _, [] => 1
  | a :: as, b :: bs =>
    if a < b then -1 else if b < a then 1 else natListCmp as bs

/-- Boolean lexicographic less-or-equal on character sequences, by code point. -/
def lexLe : List Char → List Char → Bool
  | [], _ => true
  | _ :: _, [] => false
  | a :: as, b :: bs =>
    if a.toNat < b.toNat then true
    else if b.toNat < a.toNat then false
    else lexLe as bs

/-- Boolean lexicographic less-or-equal on strings. -/
def strLe (s t : String) : Bool := lexLe s.data t.data

/-- Modelled from the spec: the IEEE-754 double payload of a Double object.
Floating-point layout is outside the scope of the embedding; a payload is
either the NaN marker (which compares unequal to itself under equality and
incomparable under the C relational operators) or an exact finite value. -/
inductive Dbl where
  | nan
  | fin (v : Int)
deriving DecidableEq

/-- Three-way comparison of double payloads with C relational semantics:
when either side is NaN both (a < b) and (a > b) are false, so the
comparison yields 0. -/
def dcmp : Dbl → Dbl → Int
  | .nan, _ => 0
  | _, .nan => 0
  | .fin a, .fin b => icmpInt a b

/-- IEEE equality on double payloads: NaN is unequal to everything,
including itself. -/
def deq : Dbl → Dbl → Bool
  | .fin a, .fin b => a == b
  | _, _ => false

/-- Hash of a double payload. -/
def dhash : Dbl → Nat
  | .nan => 7
  | .fin v => 11 + v.natAbs * 2 + (if v < 0 then 1 else 0)

/-- Type tags of rpc_object_t, in the declaration order of the rpc_type_t
enumeration in include/rpc/object.h (RPC_TYPE_SHMEM is Linux-only). -/
inductive rpc_type_t where
  | RPC_TYPE_NULL
  | RPC_TYPE_BOOL
  | RPC_TYPE_UINT64
  | RPC_TYPE_INT64
  | RPC_TYPE_DOUBLE
  | RPC_TYPE_DATE
  | RPC_TYPE_STRING
  | RPC_TYPE_BINARY
  | RPC_TYPE_FD
  | RPC_TYPE_DICTIONARY
  | RPC_TYPE_ARRAY
  | RPC_TYPE_ERROR
  | RPC_TYPE_SHMEM
deriving DecidableEq

/-- Numeric value of a type tag, matching the C enumeration order. -/
def rpcTypeTag : rpc_type_t → Nat
  | .RPC_TYPE_NULL => 0
  | .RPC_TYPE_BOOL => 1
  | .RPC_TYPE_UINT64 => 2
  | .RPC_TYPE_INT64 => 3
  | .RPC_TYPE_DOUBLE => 4
  | .RPC_TYPE_DATE => 5
  | .RPC_TYPE_STRING => 6
  | .RPC_TYPE_BINARY => 7
  | .RPC_TYPE_FD => 8
  | .RPC_TYPE_DICTIONARY => 9
  | .RPC_TYPE_ARRAY => 10
  | .RPC_TYPE_ERROR => 11
  | .RPC_TYPE_SHMEM => 12

/-- Modelled from the spec: the boxed value (rpc_object_t) of the object
model, one constructor per variant of section 3.1 of the data model.
Shmem is platform-optional and is not produced by any modelled operation,
so it is omitted.  A dictionary is its insertion-ordered entry list; an
error carries code, message and optional extra and stack objects. -/
inductive RPCObject where
  | null
  | bool (b : Bool)
  | uint64 (v : Nat)
  | int64 (v : Int)
  | double (d : Dbl)
  | date (t : Int)
  | string (s : String)
  | binary (bytes : List Nat)
  | fd (n : Int)
  | dictionary (entries : List (String × RPCObject))
  | array (elements : List RPCObject)
  | error (code : Int) (message : String) (extra : Option RPCObject)
      (stack : Option RPCObject)

/-- Embedding of rpc_get_type: the type tag of an object. -/
def rpc_get_type : RPCObject → rpc_type_t
  | .null => .RPC_TYPE_NULL
  | .bool _ => .RPC_TYPE_BOOL
  | .uint64 _ => .RPC_TYPE_UINT64
  | .int64 _ => .RPC_TYPE_INT64
  | .double _ => .RPC_TYPE_DOUBLE
  | .date _ => .RPC_TYPE_DATE
  | .string _ => .RPC_TYPE_STRING
  | .binary _ => .RPC_TYPE_BINARY
  | .fd _ => .RPC_TYPE_FD
  | .dictionary _ => .RPC_TYPE_DICTIONARY
  | .array _ => .RPC_TYPE_ARRAY
  | .error _ _ _ _ => .RPC_TYPE_ERROR

/-- Key order used to sort dictionary entries for comparison. -/
def keyLe (p q : String × RPCObject) : Prop := strLe p.1 q.1 = true

instance : DecidableRel keyLe :=
  fun p q => inferInstanceAs (Decidable (strLe p.1 q.1 = true))

/-- Strict key order on dictionary entries. -/
def keyLt (p q : String × RPCObject) : Prop := keyLe p q ∧ p.1 ≠ q.1

/-- Boolean check that an entry list has pairwise distinct keys. -/
def nodupKeys : List (String × RPCObject) → Bool
  | [] => true
  | (k, _) :: es => !(es.any (fun q => q.1 == k)) && nodupKeys es

mutual

/-- Well-formedness of an object: every dictionary in it has pairwise
distinct keys, as required of a mapping. -/
def wf : RPCObject → Bool
  | .dictionary es => nodupKeys es && wfEntries es
  | .array xs => wfList xs
  | .error _ _ ex st => wfOpt ex && wfOpt st
  | _ => true

/-- Well-formedness of a list of objects. -/
def wfList : List RPCObject → Bool
  | [] => true
  | x :: xs => wf x && wfList xs

/-- Well-formedness of a dictionary entry list. -/
def wfEntries : List (String × RPCObject) → Bool
  | [] => true
  | (_, v) :: es => wf v && wfEntries es

/-- Well-formedness of an optional object. -/
def wfOpt : Option RPCObject → Bool
  | none => true
  | some x => wf x

end

mutual

/-- Check that an object contains no NaN double payload at any depth. -/
def noNaN : RPCObject → Bool
  | .double .nan => false
  | .double (.fin _) => true
  | .dictionary es => noNaNEntries es
  | .array xs => noNaNList xs
  | .error _ _ ex st => noNaNOpt ex && noNaNOpt st
  | _ => true

/-- NaN-freedom of a list of objects. -/
def noNaNList : List RPCObject → Bool
  | [] => true
  | x :: xs => noNaN x && noNaNList xs

/-- NaN-freedom of a dictionary entry list. -/
def noNaNEntries : List (String × RPCObject) → Bool
  | [] => true
  | (_, v) :: es => noNaN v && noNaNEntries es

/-- NaN-freedom of an optional object. -/
def noNaNOpt : Option RPCObject → Bool
  | none => true
  | some x => noNaN x

end

mutual

/-- Check that an object contains no Fd variant at any depth. -/
def noFd : RPCObject → Bool
  | .fd _ => false
  | .dictionary es => noFdEntries es
  | .array xs => noFdList xs
  | .error _ _ ex st => noFdOpt ex && noFdOpt st
  | _ => true

/-- Fd-freedom of a list of objects. -/
def noFdList : List RPCObject → Bool
  | [] => true
  | x :: xs => noFd x && noFdList xs

/-- Fd-freedom of a dictionary entry list. -/
def noFdEntries : List (String × RPCObject) → Bool
  | [] => true
  | (_, v) :: es => noFd v && noFdEntries es

/-- Fd-freedom of an optional object. -/
def noFdOpt : Option RPCObject → Bool
  | none => true
  | some x => noFd x

end

/-- Reserved sigil keys of the JSON codec. -/
def isSigilKey (k : String) : Bool :=
  k == "$uint" || k == "$date" || k == "$binary" || k == "$fd" || k == "$error"

mutual

/-- Check that no single-entry dictionary anywhere in the object uses a
reserved JSON sigil key. -/
def noSigil : RPCObject → Bool
  | .dictionary es =>
    (match es with
     | [(k, _)] => !(isSigilKey k)
     | _ => true) && noSigilEntries es
  | .array xs => noSigilList xs
  | .error _ _ ex st => noSigilOpt ex && noSigilOpt st
  | _ => true

/-- Sigil-freedom of a list of objects. -/
def noSigilList : List RPCObject → Bool
  | [] => true
  | x :: xs => noSigil x && noSigilList xs

/-- Sigil-freedom of a dictionary entry list. -/
def noSigilEntries : List (String × RPCObject) → Bool
  | [] => true
  | (_, v) :: es => noSigil v && noSigilEntries es

/-- Sigil-freedom of an optional object. -/
def noSigilOpt : Option RPCObject → Bool
  | none => true
  | some x => noSigil x

end

mutual

/-- Canonical form of an object: every dictionary entry list is sorted by
key, recursively.  Comparing canonical forms pointwise implements the
spec's key-sorted elementwise dictionary comparison. -/
def sortAll : RPCObject → RPCObject
  | .null => .null
  | .bool b => .bool b
  | .uint64 v => .uint64 v
  | .int64 v => .int64 v
  | .double d => .double d
  | .date t => .date t
  | .string s => .string s
  | .binary bs => .binary bs
  | .fd n => .fd n
  | .dictionary es => .dictionary (List.insertionSort keyLe (sortAllEntries es))
  | .array xs => .array (sortAllList xs)
  | .error c m ex st => .error c m (sortAllOpt ex) (sortAllOpt st)

/-- Canonical form of a list of objects. -/
def sortAllList : List RPCObject → List RPCObject
  | [] => []
  | x :: xs => sortAll x :: sortAllList xs

/-- Canonical form of a dictionary entry list, values only; the enclosing
dictionary case sorts the result by key. -/
def sortAllEntries : List (String × RPCObject) → List (String × RPCObject)
  | [] => []
  | (k, v) :: es => (k, sortAll v) :: sortAllEntries es

/-- Canonical form of an optional object. -/
def sortAllOpt : Option RPCObject → Option RPCObject
  | none => none
  | some x => some (sortAll x)

end

mutual

/-- Pointwise three-way comparison of canonical objects.  Objects of
different type compare by the numeric value of their type tags; objects of
the same type compare by the natural order of their payloads, elementwise
for containers (dictionary entry lists are already key-sorted in canonical
form). -/
def cmpPre : RPCObject → RPCObject → Int
  | .null, .null => 0
  | .bool a, .bool b => icmpNat a.toNat b.toNat
  | .uint64 a, .uint64 b => icmpNat a b
  | .int64 a, .int64 b => icmpInt a b
  | .double a, .double b => dcmp a b
  | .date a, .date b => icmpInt a b
  | .string a, .string b => scmp a b
  | .binary a, .binary b => natListCmp a b
  | .fd a, .fd b => icmpInt a b
  | .dictionary es, .dictionary fs => cmpPreEntries es fs
  | .array xs, .array ys => cmpPreList xs ys
  | .error c1 m1 e1 s1, .error c2 m2 e2 s2 =>
    let c := icmpInt c1 c2
    if c = 0 then
      let cm := scmp m1 m2
      if cm = 0 then
        let ce := cmpPreOpt e1 e2
        if ce = 0 then cmpPreOpt s1 s2 else ce
      else cm
    else c
  | a, b => icmpNat (rpcTypeTag (rpc_get_type a)) (rpcTypeTag (rpc_get_type b))
termination_by structural x _ => x

/-- Lexicographic elementwise comparison of object lists. -/
def cmpPreList : List RPCObject → List RPCObject → Int
  | [], [] => 0
  | [], _ :: _ => -1
  | _ :: _, [] => 1
  | x :: xs, y :: ys =>
    let c := cmpPre x y
    if c = 0 then cmpPreList xs ys else c
termination_by structural x _ => x

/-- Lexicographic elementwise comparison of key-sorted entry lists:
keys first, then values. -/
def cmpPreEntries :
    List (String × RPCObject) → List (String × RPCObject) → Int
  | [], [] => 0
  | [], _ :: _ => -1
  | _ :: _, [] => 1
  | (k1, v1) :: es, (k2, v2) :: fs =>
    let ck := scmp k1 k2
    if ck = 0 then
      let cv := cmpPre v1 v2
      if cv = 0 then cmpPreEntries es fs else cv
    else ck
termination_by structural x _ => x

/-- Comparison of optional objects; absent sorts before present. -/
def cmpPreOpt : Option RPCObject → Option RPCObject → Int
  | none, none => 0
  | none, some _ => -1
  | some _, none => 1
  | some a, some b => cmpPre a b
termination_by structural x _ => x

end

/-- Modelled from the spec: rpc_cmp, the total preorder on objects.
Cross-type comparison orders variants by tag enumeration value; intra-type
comparison uses the natural order, lexicographic for strings and binary,
elementwise for arrays, key-sorted elementwise for dictionaries.  It is
implemented by canonicalizing dictionary order recursively and comparing
the canonical forms pointwise. -/
def rpc_cmp (o1 o2 : RPCObject) : Int := cmpPre (sortAll o1) (sortAll o2)

/-- Lookup of a key in a dictionary entry list (first match). -/
def alookup (k : String) : List (String × RPCObject) → Option RPCObject
  | [] => none
  | (k2, v) :: es => if k2 == k then some v else alookup k es

mutual

/-- Modelled from the spec: rpc_equal.  Two objects are equal iff their
tags match and payloads compare equal recursively; dictionaries compare
equal ignoring insertion order but requiring identical key sets and
pairwise equal values (checked as equal entry counts plus lookup of every
left entry in the right dictionary); arrays are order-sensitive; double
payloads use IEEE equality, under which NaN is unequal to itself. -/
def rpc_equal : RPCObject → RPCObject → Bool
  | .null, .null => true
  | .bool a, .bool b => a == b
  | .uint64 a, .uint64 b => a == b
  | .int64 a, .int64 b => a == b
  | .double a, .double b => deq a b
  | .date a, .date b => a == b
  | .string a, .string b => a == b
  | .binary a, .binary b => a == b
  | .fd a, .fd b => a == b
  | .dictionary es, .dictionary fs =>
    (es.length == fs.length) && equalEntries es fs
  | .array xs, .array ys => equalList xs ys
  | .error c1 m1 e1 s1, .error c2 m2 e2 s2 =>
    (c1 == c2) && (m1 == m2) && equalOpt e1 e2 && equalOpt s1 s2
  | _, _ => false
termination_by structural x _ => x

/-- Pointwise equality of object lists. -/
def equalList : List RPCObject → List RPCObject → Bool
  | [], [] => true
  | x :: xs, y :: ys => rpc_equal x y && equalList xs ys
  | _, _ => false
termination_by structural x _ => x

/-- Every left entry's key is present on the right with an equal value. -/
def equalEntries :
    List (String × RPCObject) → List (String × RPCObject) → Bool
  | [], _ => true
  | (k, v) :: es, fs =>
    (match alookup k fs with
     | some w => rpc_equal v w
     | none => false) && equalEntries es fs
termination_by structural x _ => x

/-- Equality of optional objects. -/
def equalOpt : Option RPCObject → Option RPCObject → Bool
  | none, none => true
  | some a, some b => rpc_equal a b
  | _, _ => false
termination_by structural x _ => x

end

/-- Hash of an integer payload. -/
def intHash (v : Int) : Nat := v.natAbs * 2 + (if v < 0 then 1 else 0)

/-- Hash of a string payload. -/
def strHash (s : String) : Nat :=
  s.data.foldl (fun h c => h * 31 + c.toNat + 1) 5381

/-- Hash of a binary payload. -/
def bytesHash (bs : List Nat) : Nat :=
  bs.foldl (fun h b => h * 33 + b + 1) 17

mutual

/-- Modelled from the spec: rpc_hash.  Computed recursively; stable across
equal objects; the dictionary hash is order-independent, the XOR over
entries of hash(key) * hash(value). -/
def rpc_hash : RPCObject → Nat
  | .null => 1
  | .bool b => 2 + b.toNat
  | .uint64 v => 5 + 13 * v
  | .int64 v => 6 + 17 * intHash v
  | .double d => 8 + 19 * dhash d
  | .date t => 9 + 23 * intHash t
  | .string s => 10 + 29 * strHash s
  | .binary bs => 12 + 31 * bytesHash bs
  | .fd n => 14 + 37 * intHash n
  | .dictionary es => 15 + 41 * hashEntries es
  | .array xs => 16 + 43 * hashList xs
  | .error c m ex st =>
    18 + 47 * intHash c + 53 * strHash m + 59 * hashOpt ex + 61 * hashOpt st

/-- Order-dependent hash of an object list. -/
def hashList : List RPCObject → Nat
  | [] => 3
  | x :: xs => hashList xs * 131 + rpc_hash x

/-- Order-independent hash of a dictionary entry list: XOR over entries of
hash(key) * hash(value). -/
def hashEntries : List (String × RPCObject) → Nat
  | [] => 0
  | (k, v) :: es => Nat.xor (strHash k * rpc_hash v) (hashEntries es)

/-- Hash of an optional object. -/
def hashOpt : Option RPCObject → Nat
  | none => 4
  | some x => 21 + rpc_hash x

end

/-- Modelled from the spec: the JSON value tree a serialized frame denotes.
Plain JSON numbers distinguish integer literals from floating-point
literals, so the tree keeps two number constructors; the double payload is
carried as is (its textual rendering is a representation detail). -/
inductive JSON where
  | null
  | bool (b : Bool)
  | inum (v : Int)
  | dnum (d : Dbl)
  | str (s : String)
  | arr (elements : List JSON)
  | obj (entries : List (String × JSON))

mutual

/-- Modelled from the spec: rpc_object_to_json, the serializer of the JSON
codec.  Containers map directly; non-JSON variants are encoded as
single-key dictionaries with a reserved sigil key: Binary as the byte
values under the binary sigil, Date as the timestamp under the date sigil,
Fd as the descriptor under the fd sigil, UInt64 under the uint sigil, and
Error as its fields under the error sigil (absent optional fields are
omitted). -/
def rpc_object_to_json : RPCObject → JSON
  | .null => .null
  | .bool b => .bool b
  | .uint64 v => .obj [("$uint", .inum (v : Int))]
  | .int64 v => .inum v
  | .double d => .dnum d
  | .date t => .obj [("$date", .inum t)]
  | .string s => .str s
  | .binary bs => .obj [("$binary", .arr (bs.map (fun (b : Nat) => JSON.inum (b : Int))))]
  | .fd n => .obj [("$fd", .inum n)]
  | .dictionary es => .obj (toJsonEntries es)
  | .array xs => .arr (toJsonList xs)
  | .error c m ex st =>
    .obj [("$error", .obj ([("code", JSON.inum c), ("message", JSON.str m)] ++
      toJsonField "extra" ex ++ toJsonField "stack" st))]

/-- Serialization of a list of objects. -/
def toJsonList : List RPCObject → List JSON
  | [] => []
  | x :: xs => rpc_object_to_json x :: toJsonList xs

/-- Serialization of a dictionary entry list. -/
def toJsonEntries : List (String × RPCObject) → List (String × JSON)
  | [] => []
  | (k, v) :: es => (k, rpc_object_to_json v) :: toJsonEntries es

/-- Serialization of an optional error field: absent fields are omitted. -/
def toJsonField (name : String) : Option RPCObject → List (String × JSON)
  | none => []
  | some v => [(name, rpc_object_to_json v)]

end

/-- Decoder of the byte list under the binary sigil. -/
def decodeBytes : List JSON → Option (List Nat)
  | [] => some []
  | .inum v :: js =>
    if 0 ≤ v then
      match decodeBytes js with
      | some bs => some (v.toNat :: bs)
      | none => none
    else none
  | _ => none

mutual

/-- Modelled from the spec: rpc_object_from_json, the decoder of the JSON
codec.  It inverts the serializer on every encodable variant; a
single-key object whose key is a reserved sigil is decoded by that sigil's
rule, and the fd sigil is undecodable (a descriptor is process-local), so
it surfaces as an Error, as do malformed sigil payloads. -/
def rpc_object_from_json : JSON → Except String RPCObject
  | .null => .ok .null
  | .bool b => .ok (.bool b)
  | .inum v => .ok (.int64 v)
  | .dnum d => .ok (.double d)
  | .str s => .ok (.string s)
  | .arr js =>
    match fromJsonList js with
    | .ok xs => .ok (.array xs)
    | .error e => .error e
  | .obj [(k, j)] =>
    if k = "$uint" then
      match j with
      | .inum v => if 0 ≤ v then .ok (.uint64 v.toNat) else .error "invalid $uint payload"
      | _ => .error "invalid $uint payload"
    else if k = "$date" then
      match j with
      | .inum t => .ok (.date t)
      | _ => .error "invalid $date payload"
    else if k = "$binary" then
      match j with
      | .arr js =>
        match decodeBytes js with
        | some bs => .ok (.binary bs)
        | none => .error "invalid $binary payload"
      | _ => .error "invalid $binary payload"
    else if k = "$fd" then
      .error "file descriptor objects cannot be decoded from JSON"
    else if k = "$error" then
      match j with
      | .obj fs => fromJsonErrorFields fs
      | _ => .error "invalid $error payload"
    else
      match rpc_object_from_json j with
      | .ok v => .ok (.dictionary [(k, v)])
      | .error e => .error e
  | .obj es =>
    match fromJsonEntries es with
    | .ok ds => .ok (.dictionary ds)
    | .error e => .error e

/-- Decoding of a list of JSON values. -/
def fromJsonList : List JSON → Except String (List RPCObject)
  | [] => .ok []
  | j :: js =>
    match rpc_object_from_json j with
    | .ok x =>
      match fromJsonList js with
      | .ok xs => .ok (x :: xs)
      | .error e => .error e
    | .error e => .error e

/-- Decoding of a plain JSON object into dictionary entries. -/
def fromJsonEntries :
    List (String × JSON) → Except String (List (String × RPCObject))
  | [] => .ok []
  | (k, j) :: es =>
    match rpc_object_from_json j with
    | .ok v =>
      match fromJsonEntries es with
      | .ok ds => .ok ((k, v) :: ds)
      | .error e => .error e
    | .error e => .error e

/-- Decoding of the field list under the error sigil; the serializer emits
code and message first, then the present optional fields in order. -/
def fromJsonErrorFields :
    List (String × JSON) → Except String RPCObject
  | [("code", .inum c), ("message", .str m)] => .ok (.error c m none none)
  | [("code", .inum c), ("message", .str m), ("extra", je)] =>
    match rpc_object_from_json je with
    | .ok e => .ok (.error c m (some e) none)
    | .error e => .error e
  | [("code", .inum c), ("message", .str m), ("stack", js)] =>
    match rpc_object_from_json js with
    | .ok s => .ok (.error c m none (some s))
    | .error e => .error e
  | [("code", .inum c), ("message", .str m), ("extra", je), ("stack", js)] =>
    match rpc_object_from_json je with
    | .ok e =>
      match rpc_object_from_json js with
      | .ok s => .ok (.error c m (some e) (some s))
      | .error e2 => .error e2
    | .error e => .error e
  | _ => .error "invalid $error payload"

end

/-- Modelled from the header documentation: rpc_bool_get_value returns the
boolean payload, or false when the object is not of RPC_TYPE_BOOL. -/
def rpc_bool_get_value : RPCObject → Bool
  | .bool b => b
  | _ => false

/-- Modelled from the header documentation: rpc_int64_get_value returns
the integer payload, or -1 when the object is not of RPC_TYPE_INT64. -/
def rpc_int64_get_value : RPCObject → Int
  | .int64 v => v
  | _ => -1

/-- Modelled from the header documentation: rpc_uint64_get_value returns
the unsigned payload, or 0 when the object is not of RPC_TYPE_UINT64. -/
def rpc_uint64_get_value : RPCObject → Nat
  | .uint64 v => v
  | _ => 0

/-- Modelled from the header documentation: rpc_double_get_value returns
the double payload, or 0 when the object is not of RPC_TYPE_DOUBLE. -/
def rpc_double_get_value : RPCObject → Dbl
  | .double d => d
  | _ => .fin 0

/-- Modelled from the header documentation: rpc_date_get_value returns the
timestamp payload, or 0 when the object is not of RPC_TYPE_DATE. -/
def rpc_date_get_value : RPCObject → Int
  | .date t => t
  | _ => 0

/-- Modelled from the header documentation: rpc_array_get_value returns
the object at the index, or NULL (here none) when the index does not
exist. -/
def rpc_array_get_value (a : List RPCObject) (index : Nat) : Option RPCObject :=
  a[index]?

/-- Modelled from the header documentation: rpc_array_get_bool returns the
boolean at the index, or false when the index does not exist or the
element is not of RPC_TYPE_BOOL. -/
def rpc_array_get_bool (a : List RPCObject) (index : Nat) : Bool :=
  match rpc_array_get_value a index with
  | some (.bool b) => b
  | _ => false

/-- Modelled from the header documentation: rpc_array_get_int64 returns
the integer at the index, or 0 when the index does not exist or the
element is not of RPC_TYPE_INT64. -/
def rpc_array_get_int64 (a : List RPCObject) (index : Nat) : Int :=
  match rpc_array_get_value a index with
  | some (.int64 v) => v
  | _ => 0

/-- Modelled from the header documentation: rpc_array_get_uint64 returns
the unsigned integer at the index, or 0 on a missing index or type
mismatch. -/
def rpc_array_get_uint64 (a : List RPCObject) (index : Nat) : Nat :=
  match rpc_array_get_value a index with
  | some (.uint64 v) => v
  | _ => 0

/-- Modelled from the header documentation: rpc_array_get_string returns
the string at the index, or NULL (here none) on a missing index or type
mismatch. -/
def rpc_array_get_string (a : List RPCObject) (index : Nat) : Option String :=
  match rpc_array_get_value a index with
  | some (.string s) => some s
  | _ => none

/-- Modelled from the header documentation: rpc_dictionary_get_value
returns the object at the key, or NULL (here none) when the key does not
exist. -/
def rpc_dictionary_get_value (d : List (String × RPCObject)) (key : String) :
    Option RPCObject :=
  alookup key d

/-- Modelled from the header documentation: rpc_dictionary_get_bool
returns the boolean at the key, or false on a missing key or type
mismatch. -/
def rpc_dictionary_get_bool (d : List (String × RPCObject)) (key : String) :
    Bool :=
  match rpc_dictionary_get_value d key with
  | some (.bool b) => b
  | _ => false

/-- Modelled from the header documentation: rpc_dictionary_get_int64
returns the integer at the key, or 0 on a missing key or type mismatch. -/
def rpc_dictionary_get_int64 (d : List (String × RPCObject)) (key : String) :
    Int :=
  match rpc_dictionary_get_value d key with
  | some (.int64 v) => v
  | _ => 0

/-- Modelled from the header documentation: rpc_dictionary_get_string
returns the string at the key, or NULL (here none) on a missing key or
type mismatch. -/
def rpc_dictionary_get_string (d : List (String × RPCObject)) (key : String) :
    Option String :=
  match rpc_dictionary_get_value d key with
  | some (.string s) => some s
  | _ => none

/-- Modelled from the header documentation: rpc_array_set_value.  Inserts
the value at the index; if the index is bigger than the array, the gap is
filled with null objects; if the index is occupied the new object takes
the old object's place; a NULL value removes the object at the index. -/
def rpc_array_set_value (a : List RPCObject) (index : Nat)
    (value : Option RPCObject) : List RPCObject :=
  match value with
  | none => a.eraseIdx index
  | some v =>
    if index < a.length then a.set index v
    else a ++ List.replicate (index - a.length) RPCObject.null ++ [v]

/-- Iteration worker of rpc_array_apply: runs the applier on each element
in index order until it returns false; the result is true when iteration
terminated early and false when it reached the end. -/
def arrayApplyGo (f : Nat → RPCObject → Bool) : Nat → List RPCObject → Bool
  | _, [] => false
  | i, x :: xs => if f i x then arrayApplyGo f (i + 1) xs else true

/-- Modelled from the header documentation: rpc_array_apply executes the
applier block for each element with its index, in index order, until the
block returns false; it returns true (terminated) in that case and false
(finished) when it reaches the end of the array. -/
def rpc_array_apply (a : List RPCObject) (applier : Nat → RPCObject → Bool) :
    Bool :=
  arrayApplyGo applier 0 a

/-- Trace worker of rpc_array_apply: the list of (index, element) pairs
the applier is invoked on, in invocation order. -/
def arrayApplyTraceGo (f : Nat → RPCObject → Bool) :
    Nat → List RPCObject → List (Nat × RPCObject)
  | _, [] => []
  | i, x :: xs =>
    (i, x) :: (if f i x then arrayApplyTraceGo f (i + 1) xs else [])

/-- Invocation trace of rpc_array_apply. -/
def rpc_array_apply_trace (a : List RPCObject)
    (applier : Nat → RPCObject → Bool) : List (Nat × RPCObject) :=
  arrayApplyTraceGo applier 0 a

/-- Modelled from the header documentation: rpc_dictionary_apply executes
the applier block for each entry with its key, in entry order, until the
block returns false; it returns true (terminated) in that case and false
(finished) when it reaches the end of the dictionary. -/
def rpc_dictionary_apply (d : List (String × RPCObject))
    (applier : String → RPCObject → Bool) : Bool :=
  match d with
  | [] => false
  | (k, v) :: es => if applier k v then rpc_dictionary_apply es applier else true

/-- Invocation trace of rpc_dictionary_apply. -/
def rpc_dictionary_apply_trace (d : List (String × RPCObject))
    (applier : String → RPCObject → Bool) : List (String × RPCObject) :=
  match d with
  | [] => []
  | (k, v) :: es =>
    (k, v) :: (if applier k v then rpc_dictionary_apply_trace es applier else [])

/-- Modelled from the spec: the reference-counting header of one object.
The rc field is the current reference count; destroys counts how many
times destruction has run. -/
structure ObjState where
  rc : Nat
  destroys : Nat
deriving DecidableEq

/-- Modelled from the header documentation: rpc_retain increments the
reference count and returns the same object. -/
def rpc_retain (s : ObjState) : ObjState :=
  { s with rc := s.rc + 1 }

/-- Modelled from the header documentation and the spec: rpc_release_impl
decrements the reference count and returns the count after the operation;
when the count reaches zero the object is destroyed (destruction runs at
that release and at no other). -/
def rpc_release_impl (s : ObjState) : ObjState × Nat :=
  let rc := s.rc - 1
  ({ rc := rc, destroys := s.destroys + (if s.rc = 1 then 1 else 0) }, rc)

/-- Per-connection callbacks a transport can install (ws.c installs its
static functions). -/
inductive WsCallback where
  | ws_send_message_cb
  | ws_abort_cb
  | ws_get_fd_cb
  | ws_release_cb
deriving DecidableEq

/-- Embedding of the callback slots of struct rpc_connection the WebSocket
transport touches: rco_send_msg, rco_abort, rco_get_fd, rco_release and
rco_arg. -/
structure rpc_connection where
  rco_send_msg : Option WsCallback
  rco_abort : Option WsCallback
  rco_get_fd : Option WsCallback
  rco_release : Option WsCallback
  rco_arg_set : Bool
deriving DecidableEq

/-- Embedding of rpc_connection_alloc as far as the transport sees it:
a fresh connection with no callbacks installed. -/
def rpc_connection_alloc : rpc_connection :=
  { rco_send_msg := none, rco_abort := none, rco_get_fd := none,
    rco_release := none, rco_arg_set := false }

/-- WS_MAX_MESSAGE_SIZE from ws.c: 1024 * 1024 bytes. -/
def WS_MAX_MESSAGE_SIZE : Nat := 1024 * 1024

/-- Embedding of ws_connect_done (ws.c lines 128-162).  On error nothing
is installed; on success the libsoup connection's maximum incoming payload
size is set to WS_MAX_MESSAGE_SIZE and the connection receives
rco_send_msg, rco_abort, rco_get_fd, rco_arg and rco_release.  The
returned pair is the updated connection and the configured maximum
incoming payload size (none when unlimited). -/
def ws_connect_done (err : Bool) (rco : rpc_connection) :
    rpc_connection × Option Nat :=
  if err then (rco, none)
  else
    ({ rco_send_msg := some .ws_send_message_cb,
       rco_abort := some .ws_abort_cb,
       rco_get_fd := some .ws_get_fd_cb,
       rco_release := some .ws_release_cb,
       rco_arg_set := true },
     some WS_MAX_MESSAGE_SIZE)

/-- Embedding of ws_process_connection (ws.c lines 220-247), the accept
path: the freshly allocated connection receives rco_send_msg, rco_abort,
rco_get_fd and rco_arg; no maximum incoming payload size is configured
for the accepted libsoup connection, and rco_release is not set. -/
def ws_process_connection : rpc_connection × Option Nat :=
  ({ rpc_connection_alloc with
     rco_send_msg := some .ws_send_message_cb,
     rco_abort := some .ws_abort_cb,
     rco_get_fd := some .ws_get_fd_cb,
     rco_arg_set := true },
   none)

/-- Connection states of a libsoup WebSocket connection. -/
inductive soup_websocket_state where
  | connecting
  | open_state
  | closing
  | closed
deriving DecidableEq

/-- One transmitted WebSocket frame: its payload bytes and whether it was
sent as a binary frame. -/
structure WsFrame where
  frame_data : List Nat
  is_binary : Bool
deriving DecidableEq

/-- Embedding of ws_send_message (ws.c lines 283-294): when the underlying
WebSocket connection is not in the open state nothing is transmitted and
-1 is returned; otherwise the buffer is sent as a single binary frame and
0 is returned.  The result is the return value and the list of frames
transmitted by the call. -/
def ws_send_message (state : soup_websocket_state) (buf : List Nat) :
    Int × List WsFrame :=
  if state ≠ .open_state then (-1, [])
  else (0, [{ frame_data := buf, is_binary := true }])

/-- Modelled from the spec: a libsoup connection with a configured maximum
incoming payload size rejects every larger inbound frame; with no
configured maximum nothing is rejected. -/
def ws_accepts_frame (maxIncoming : Option Nat) (len : Nat) : Bool :=
  match maxIncoming with
  | none => true
  | some m => len ≤ m

theorem icmpInt_eq_zero_iff (a b : Int) : icmpInt a b = 0 ↔ a = b := by
  unfold icmpInt
  split
  · omega
  · split <;> omega

theorem icmpNat_eq_zero_iff (a b : Nat) : icmpNat a b = 0 ↔ a = b := by
  unfold icmpNat
  split
  · omega
  · split <;> omega

/-- Claim C4 — dense array set: for every array of length n and every
index i above n, rpc_array_set_value with a non-NULL value leaves
positions n..i-1 holding Null objects, position i holding the value, the
length equal to i+1, and positions 0..n-1 unchanged. -/
theorem rpc_array_set_value_dense (a : List RPCObject) (i : Nat)
    (v : RPCObject) (h : a.length < i) :
    (rpc_array_set_value a i (some v)).length = i + 1 ∧
    (∀ j, j < a.length → (rpc_array_set_value a i (some v))[j]? = a[j]?) ∧
    (∀ j, a.length ≤ j → j < i →
      (rpc_array_set_value a i (some v))[j]? = some RPCObject.null) ∧
    (rpc_array_set_value a i (some v))[i]? = some v := by
  have hnot : ¬ i < a.length := by omega
  unfold rpc_array_set_value
  simp only [hnot, if_false]
  refine ⟨?_, ?_, ?_, ?_⟩
  · simp
    omega
  · intro j hj
    rw [List.append_assoc, List.getElem?_append, if_pos hj]
  · intro j hj1 hj2
    rw [List.append_assoc, List.getElem?_append, if_neg (by omega),
      List.getElem?_append, if_pos (by simp; omega), List.getElem?_replicate,
      if_pos (by omega)]
  · rw [List.append_assoc, List.getElem?_append, if_neg (by omega),
      List.getElem?_append, if_neg (by simp)]
    simp

/-- Witness for C4 at a concrete array and index. -/
theorem rpc_array_set_value_dense_witness :
    ([RPCObject.bool true] : List RPCObject).length < 3 ∧
    ((rpc_array_set_value [RPCObject.bool true] 3 (some (.int64 7))).length
        = 4 ∧
      (rpc_array_set_value [RPCObject.bool true] 3 (some (.int64 7)))[1]?
        = some RPCObject.null ∧
      (rpc_array_set_value [RPCObject.bool true] 3 (some (.int64 7)))[3]?
        = some (.int64 7)) :=
  ⟨by decide,
   (rpc_array_set_value_dense [RPCObject.bool true] 3 (.int64 7)
      (by decide)).1,
   (rpc_array_set_value_dense [RPCObject.bool true] 3 (.int64 7)
      (by decide)).2.2.1 1 (by decide) (by decide),
   (rpc_array_set_value_dense [RPCObject.bool true] 3 (.int64 7)
      (by decide)).2.2.2⟩

/-- Counterexample to claim C5 as stated: the claim says every numeric
accessor, including the scalar rpc_int64_get_value, returns 0 on a
type-mismatched object; the header documents and the model returns -1
there. -/
theorem rpc_int64_get_value_mismatch_cex :
    rpc_int64_get_value RPCObject.null = -1 ∧ (-1 : Int) ≠ 0 :=
  ⟨rfl, by decide⟩

/-- Claim C5, amended — typed accessor sentinels: container typed
accessors return the documented sentinel on a missing key/index or
type-mismatched element (false for Bool, 0 for numerics, none for
String), and the scalar rpc_int64_get_value returns -1, not 0, on an
object that is not of RPC_TYPE_INT64. -/
theorem typed_accessor_sentinels :
    (∀ o : RPCObject, rpc_get_type o ≠ .RPC_TYPE_INT64 →
      rpc_int64_get_value o = -1) ∧
    (∀ (a : List RPCObject) (i : Nat),
      (∀ v, rpc_array_get_value a i ≠ some (RPCObject.int64 v)) →
      rpc_array_get_int64 a i = 0) ∧
    (∀ (a : List RPCObject) (i : Nat),
      (∀ b, rpc_array_get_value a i ≠ some (RPCObject.bool b)) →
      rpc_array_get_bool a i = false) ∧
    (∀ (a : List RPCObject) (i : Nat),
      (∀ v, rpc_array_get_value a i ≠ some (RPCObject.uint64 v)) →
      rpc_array_get_uint64 a i = 0) ∧
    (∀ (a : List RPCObject) (i : Nat),
      (∀ s, rpc_array_get_value a i ≠ some (RPCObject.string s)) →
      rpc_array_get_string a i = none) ∧
    (∀ (d : List (String × RPCObject)) (k : String),
      (∀ s, rpc_dictionary_get_value d k ≠ some (RPCObject.string s)) →
      rpc_dictionary_get_string d k = none) ∧
    (∀ (d : List (String × RPCObject)) (k : String),
      (∀ v, rpc_dictionary_get_value d k ≠ some (RPCObject.int64 v)) →
      rpc_dictionary_get_int64 d k = 0) ∧
    (∀ (d : List (String × RPCObject)) (k : String),
      (∀ b, rpc_dictionary_get_value d k ≠ some (RPCObject.bool b)) →
      rpc_dictionary_get_bool d k = false) ∧
    (∀ o : RPCObject, rpc_get_type o ≠ .RPC_TYPE_BOOL →
      rpc_bool_get_value o = false) ∧
    (∀ o : RPCObject, rpc_get_type o ≠ .RPC_TYPE_UINT64 →
      rpc_uint64_get_value o = 0) := by
  refine ⟨?_, ?_, ?_, ?_, ?_, ?_, ?_, ?_, ?_, ?_⟩
  · intro o h
    cases o <;> simp_all [rpc_int64_get_value, rpc_get_type]
  · intro a i h
    unfold rpc_array_get_int64
    split
    · rename_i v heq
      exact absurd heq (h v)
    · rfl
  · intro a i h
    unfold rpc_array_get_bool
    split
    · rename_i b heq
      exact absurd heq (h b)
    · rfl
  · intro a i h
    unfold rpc_array_get_uint64
    split
    · rename_i v heq
      exact absurd heq (h v)
    · rfl
  · intro a i h
    unfold rpc_array_get_string
    split
    · rename_i s heq
      exact absurd heq (h s)
    · rfl
  · intro d k h
    unfold rpc_dictionary_get_string
    split
    · rename_i s heq
      exact absurd heq (h s)
    · rfl
  · intro d k h
    unfold rpc_dictionary_get_int64
    split
    · rename_i v heq
      exact absurd heq (h v)
    · rfl
  · intro d k h
    unfold rpc_dictionary_get_bool
    split
    · rename_i b heq
      exact absurd heq (h b)
    · rfl
  · intro o h
    cases o <;> simp_all [rpc_bool_get_value, rpc_get_type]
  · intro o h
    cases o <;> simp_all [rpc_uint64_get_value, rpc_get_type]

/-- Witness for C5 at concrete mismatched inputs. -/
theorem typed_accessor_sentinels_witness :
    rpc_int64_get_value (RPCObject.string "x") = -1 ∧
    rpc_array_get_int64 [RPCObject.bool true] 0 = 0 ∧
    rpc_array_get_int64 [] 5 = 0 ∧
    rpc_dictionary_get_string [("a", RPCObject.int64 1)] "a" = none ∧
    rpc_dictionary_get_string [] "missing" = none ∧
    rpc_bool_get_value RPCObject.null = false :=
  ⟨typed_accessor_sentinels.1 (RPCObject.string "x") (by decide),
   typed_accessor_sentinels.2.1 [RPCObject.bool true] 0
     (fun v h => RPCObject.noConfusion (Option.some.inj h)),
   typed_accessor_sentinels.2.1 [] 5 (fun v h => Option.noConfusion h),
   typed_accessor_sentinels.2.2.2.2.2.1 [("a", RPCObject.int64 1)] "a"
     (fun s h => RPCObject.noConfusion (Option.some.inj h)),
   typed_accessor_sentinels.2.2.2.2.2.1 [] "missing"
     (fun s h => Option.noConfusion h),
   typed_accessor_sentinels.2.2.2.2.2.2.2.2.1 RPCObject.null (by decide)⟩

/-- Claim C6 — retain/release: with at least one holder, a retain followed
by one release returns the state unchanged (the identity on the reference
count) and reports the original count, so no destruction runs; a release
with two or more holders does not destroy; the release that takes the
count from 1 to 0 destroys exactly once and reports 0. -/
theorem retain_release_refcount (s : ObjState) (h : 1 ≤ s.rc) :
    rpc_release_impl (rpc_retain s) = (s, s.rc) ∧
    (∀ t : ObjState, 2 ≤ t.rc →
      (rpc_release_impl t).1.destroys = t.destroys ∧
      1 ≤ (rpc_release_impl t).1.rc) ∧
    (∀ t : ObjState, t.rc = 1 →
      (rpc_release_impl t).1.destroys = t.destroys + 1 ∧
      (rpc_release_impl t).2 = 0) := by
  refine ⟨?_, ?_, ?_⟩
  · obtain ⟨rc, d⟩ := s
    simp only [rpc_retain, rpc_release_impl]
    simp only [Prod.mk.injEq, ObjState.mk.injEq]
    refine ⟨⟨by omega, ?_⟩, by omega⟩
    have : ¬ rc + 1 = 1 := by simp at h; omega
    simp [this]
  · intro t ht
    obtain ⟨rc, d⟩ := t
    simp only [rpc_release_impl]
    simp at ht
    have : ¬ rc = 1 := by omega
    simp [this]
    omega
  · intro t ht
    obtain ⟨rc, d⟩ := t
    simp only [rpc_release_impl]
    simp at ht
    simp [ht]

/-- Witness for C6 at a concrete state with one holder. -/
theorem retain_release_refcount_witness :
    rpc_release_impl (rpc_retain ⟨1, 0⟩) = (⟨1, 0⟩, 1) ∧
    (rpc_release_impl ⟨1, 0⟩).1.destroys = 1 :=
  ⟨(retain_release_refcount ⟨1, 0⟩ (by decide)).1,
   ((retain_release_refcount ⟨1, 0⟩ (by decide)).2.2 ⟨1, 0⟩ rfl).1⟩

/-- Counterexample to claim C7 as stated: the claim says every accepted
incoming connection is populated with all four callbacks including the
release hook; ws_process_connection leaves rco_release unset. -/
theorem ws_accept_release_missing_cex :
    ws_process_connection.1.rco_release = none ∧
    ws_process_connection.1.rco_send_msg = some .ws_send_message_cb := by
  constructor <;> rfl

/-- Claim C7, amended — transport callback population: a successful client
connect populates the connection with all four callbacks (send_msg, abort,
get_fd and release) and the argument pointer, while a server-accepted
connection receives send_msg, abort, get_fd and the argument pointer but
not the release hook that destroys transport state. -/
theorem ws_callback_population (rco : rpc_connection) :
    ((ws_connect_done false rco).1.rco_send_msg = some .ws_send_message_cb ∧
     (ws_connect_done false rco).1.rco_abort = some .ws_abort_cb ∧
     (ws_connect_done false rco).1.rco_get_fd = some .ws_get_fd_cb ∧
     (ws_connect_done false rco).1.rco_release = some .ws_release_cb ∧
     (ws_connect_done false rco).1.rco_arg_set = true) ∧
    (ws_process_connection.1.rco_send_msg = some .ws_send_message_cb ∧
     ws_process_connection.1.rco_abort = some .ws_abort_cb ∧
     ws_process_connection.1.rco_get_fd = some .ws_get_fd_cb ∧
     ws_process_connection.1.rco_arg_set = true ∧
     ws_process_connection.1.rco_release = none) := by
  refine ⟨⟨?_, ?_, ?_, ?_, ?_⟩, ⟨rfl, rfl, rfl, rfl, rfl⟩⟩ <;>
    simp [ws_connect_done]

/-- Claim C8 — send only when OPEN: the WebSocket send operation transmits
nothing and returns -1 when the connection is not in the open state; when
it is open it transmits the buffer as one binary frame and returns 0. -/
theorem ws_send_message_open_only (state : soup_websocket_state)
    (buf : List Nat) :
    (state ≠ .open_state → ws_send_message state buf = (-1, [])) ∧
    (state = .open_state →
      ws_send_message state buf = (0, [{ frame_data := buf, is_binary := true }])) := by
  constructor
  · intro h
    simp [ws_send_message, h]
  · intro h
    simp [ws_send_message, h]

/-- Witness for C8 at a concrete closed and a concrete open connection. -/
theorem ws_send_message_open_only_witness :
    ws_send_message .closed [1, 2] = (-1, []) ∧
    ws_send_message .open_state [1, 2] =
      (0, [{ frame_data := [1, 2], is_binary := true }]) :=
  ⟨(ws_send_message_open_only .closed [1, 2]).1 (by decide),
   (ws_send_message_open_only .open_state [1, 2]).2 rfl⟩

theorem arrayApplyGo_true_iff (f : Nat → RPCObject → Bool) :
    ∀ (xs : List RPCObject) (i : Nat),
      (arrayApplyGo f i xs = true ↔
        ∃ j, ∃ hj : j < xs.length, f (i + j) xs[j] = false)
  | [], i => by simp [arrayApplyGo]
  | x :: xs, i => by
    unfold arrayApplyGo
    by_cases hfx : f i x = true
    · rw [if_pos hfx, arrayApplyGo_true_iff f xs (i + 1)]
      constructor
      · rintro ⟨j, hj, hfail⟩
        exact ⟨j + 1, by simp; omega, by
          simpa [Nat.add_assoc, Nat.add_comm 1 j] using hfail⟩
      · rintro ⟨j, hj, hfail⟩
        match j with
        | 0 => simp at hfail; simp_all
        | j + 1 =>
          refine ⟨j, by simp at hj; omega, ?_⟩
          simpa [Nat.add_assoc, Nat.add_comm 1 j] using hfail
    · rw [if_neg hfx]
      simp only [true_iff]
      exact ⟨0, by simp, by simpa using hfx⟩

theorem arrayApplyTraceGo_take (f : Nat → RPCObject → Bool) :
    ∀ (xs : List RPCObject) (i : Nat),
      ∃ n, arrayApplyTraceGo f i xs = (List.enumFrom i xs).take n
  | [], i => ⟨0, by simp [arrayApplyTraceGo]⟩
  | x :: xs, i => by
    unfold arrayApplyTraceGo
    by_cases hfx : f i x = true
    · obtain ⟨n, hn⟩ := arrayApplyTraceGo_take f xs (i + 1)
      exact ⟨n + 1, by simp [hfx, hn, List.enumFrom]⟩
    · exact ⟨1, by simp [hfx, List.enumFrom]⟩

theorem dictApply_true_iff (g : String → RPCObject → Bool) :
    ∀ d : List (String × RPCObject),
      (rpc_dictionary_apply d g = true ↔ ∃ p, p ∈ d ∧ g p.1 p.2 = false)
  | [] => by simp [rpc_dictionary_apply]
  | (k, v) :: es => by
    unfold rpc_dictionary_apply
    by_cases hkv : g k v = true
    · rw [if_pos hkv, dictApply_true_iff g es]
      constructor
      · rintro ⟨p, hp, hfail⟩
        exact ⟨p, List.mem_cons_of_mem _ hp, hfail⟩
      · rintro ⟨p, hp, hfail⟩
        rcases List.mem_cons.mp hp with h | h
        · subst h; simp_all
        · exact ⟨p, h, hfail⟩
    · rw [if_neg hkv]
      simp only [true_iff]
      exact ⟨(k, v), List.mem_cons_self _ _, by simpa using hkv⟩

theorem dictApplyTrace_take (g : String → RPCObject → Bool) :
    ∀ d : List (String × RPCObject),
      ∃ n, rpc_dictionary_apply_trace d g = d.take n
  | [] => ⟨0, by simp [rpc_dictionary_apply_trace]⟩
  | (k, v) :: es => by
    unfold rpc_dictionary_apply_trace
    by_cases hkv : g k v = true
    · obtain ⟨n, hn⟩ := dictApplyTrace_take g es
      exact ⟨n + 1, by simp [hkv, hn]⟩
    · exact ⟨1, by simp [hkv]⟩

/-- Claim C9 — applier iteration result: rpc_array_apply invokes the
applier on elements in index order (its invocation trace is an initial
segment of the enumerated array) and returns true exactly when the
applier returned false on some element, false when iteration reached the
end; rpc_dictionary_apply behaves the same over dictionary entries. -/
theorem applier_iteration_result (a : List RPCObject)
    (f : Nat → RPCObject → Bool) (d : List (String × RPCObject))
    (g : String → RPCObject → Bool) :
    (rpc_array_apply a f = true ↔
      ∃ j, ∃ hj : j < a.length, f j a[j] = false) ∧
    (∃ n, rpc_array_apply_trace a f = a.enum.take n) ∧
    (rpc_dictionary_apply d g = true ↔ ∃ p, p ∈ d ∧ g p.1 p.2 = false) ∧
    (∃ n, rpc_dictionary_apply_trace d g = d.take n) := by
  refine ⟨?_, ?_, dictApply_true_iff g d, dictApplyTrace_take g d⟩
  · rw [rpc_array_apply, arrayApplyGo_true_iff f a 0]
    simp
  · rw [rpc_array_apply_trace, List.enum]
    exact arrayApplyTraceGo_take f a 0

/-- Claim C10 — inbound message size cap: WS_MAX_MESSAGE_SIZE is 1048576
bytes; the client connect path configures the connection with that
maximum incoming payload size, so every larger inbound frame is rejected,
while the server accept path installs no cap. -/
theorem ws_max_message_size_cap (rco : rpc_connection) (len : Nat) :
    WS_MAX_MESSAGE_SIZE = 1048576 ∧
    (ws_connect_done false rco).2 = some WS_MAX_MESSAGE_SIZE ∧
    ws_process_connection.2 = none ∧
    (WS_MAX_MESSAGE_SIZE < len →
      ws_accepts_frame (ws_connect_done false rco).2 len = false) := by
  refine ⟨rfl, rfl, rfl, ?_⟩
  intro h
  simp [ws_connect_done, ws_accepts_frame]
  omega

/-- Witness for C10 at a concrete connection and frame length. -/
theorem ws_max_message_size_cap_witness :
    ws_accepts_frame (ws_connect_done false rpc_connection_alloc).2 1048577
      = false :=
  (ws_max_message_size_cap rpc_connection_alloc 1048577).2.2.2 (by decide)

theorem noFdList_mem {xs : List RPCObject} (h : noFdList xs = true) :
    ∀ x ∈ xs, noFd x = true := by
  induction xs with
  | nil => intro x hx; cases hx
  | cons y ys ih =>
    rw [noFdList, Bool.and_eq_true] at h
    intro x hx
    rcases List.mem_cons.mp hx with rfl | hx
    · exact h.1
    · exact ih h.2 x hx

theorem noFdEntries_mem {es : List (String × RPCObject)}
    (h : noFdEntries es = true) : ∀ p ∈ es, noFd p.2 = true := by
  induction es with
  | nil => intro p hp; cases hp
  | cons q qs ih =>
    obtain ⟨k, v⟩ := q
    rw [noFdEntries, Bool.and_eq_true] at h
    intro p hp
    rcases List.mem_cons.mp hp with rfl | hp
    · exact h.1
    · exact ih h.2 p hp

theorem noFdList_false {xs : List RPCObject} (h : noFdList xs = false) :
    ∃ x ∈ xs, noFd x = false := by
  induction xs with
  | nil => cases h
  | cons y ys ih =>
    rw [noFdList] at h
    rcases Bool.and_eq_false_iff.mp h with h1 | h2
    · exact ⟨y, List.mem_cons_self _ _, h1⟩
    · obtain ⟨x, hx, hf⟩ := ih h2
      exact ⟨x, List.mem_cons_of_mem _ hx, hf⟩

theorem noFdEntries_false {es : List (String × RPCObject)}
    (h : noFdEntries es = false) : ∃ p ∈ es, noFd p.2 = false := by
  induction es with
  | nil => cases h
  | cons q qs ih =>
    obtain ⟨k, v⟩ := q
    rw [noFdEntries] at h
    rcases Bool.and_eq_false_iff.mp h with h1 | h2
    · exact ⟨(k, v), List.mem_cons_self _ _, h1⟩
    · obtain ⟨p, hp, hf⟩ := ih h2
      exact ⟨p, List.mem_cons_of_mem _ hp, hf⟩

theorem noSigilList_mem {xs : List RPCObject} (h : noSigilList xs = true) :
    ∀ x ∈ xs, noSigil x = true := by
  induction xs with
  | nil => intro x hx; cases hx
  | cons y ys ih =>
    rw [noSigilList, Bool.and_eq_true] at h
    intro x hx
    rcases List.mem_cons.mp hx with rfl | hx
    · exact h.1
    · exact ih h.2 x hx

theorem noSigilEntries_mem {es : List (String × RPCObject)}
    (h : noSigilEntries es = true) : ∀ p ∈ es, noSigil p.2 = true := by
  induction es with
  | nil => intro p hp; cases hp
  | cons q qs ih =>
    obtain ⟨k, v⟩ := q
    rw [noSigilEntries, Bool.and_eq_true] at h
    intro p hp
    rcases List.mem_cons.mp hp with rfl | hp
    · exact h.1
    · exact ih h.2 p hp

theorem decodeBytes_map (bs : List Nat) :
    decodeBytes (bs.map (fun (b : Nat) => JSON.inum (b : Int))) = some bs := by
  induction bs with
  | nil => rfl
  | cons b bs ih =>
    simp only [List.map_cons, decodeBytes]
    rw [if_pos (by omega), ih]
    simp

theorem mem_toJsonList {x : RPCObject} {xs : List RPCObject} (h : x ∈ xs) :
    rpc_object_to_json x ∈ toJsonList xs := by
  induction xs with
  | nil => cases h
  | cons y ys ih =>
    rw [toJsonList]
    rcases List.mem_cons.mp h with rfl | h
    · exact List.mem_cons_self _ _
    · exact List.mem_cons_of_mem _ (ih h)

theorem mem_toJsonEntries {p : String × RPCObject}
    {es : List (String × RPCObject)} (h : p ∈ es) :
    (p.1, rpc_object_to_json p.2) ∈ toJsonEntries es := by
  induction es with
  | nil => cases h
  | cons q qs ih =>
    obtain ⟨k, v⟩ := q
    rw [toJsonEntries]
    rcases List.mem_cons.mp h with rfl | h
    · exact List.mem_cons_self _ _
    · exact List.mem_cons_of_mem _ (ih h)

theorem fromJsonList_ok {js : List JSON} {f : JSON → RPCObject}
    (h : ∀ j ∈ js, rpc_object_from_json j = .ok (f j)) :
    fromJsonList js = .ok (js.map f) := by
  induction js with
  | nil => rfl
  | cons j js ih =>
    rw [fromJsonList, h j (List.mem_cons_self _ _),
      ih (fun j hj => h j (List.mem_cons_of_mem _ hj))]
    simp

theorem fromJsonList_roundtrip {xs : List RPCObject}
    (h : ∀ x ∈ xs, rpc_object_from_json (rpc_object_to_json x) = .ok x) :
    fromJsonList (toJsonList xs) = .ok xs := by
  induction xs with
  | nil => rfl
  | cons x xs ih =>
    rw [toJsonList, fromJsonList, h x (List.mem_cons_self _ _),
      ih (fun y hy => h y (List.mem_cons_of_mem _ hy))]

theorem fromJsonEntries_roundtrip {es : List (String × RPCObject)}
    (h : ∀ p ∈ es, rpc_object_from_json (rpc_object_to_json p.2) = .ok p.2) :
    fromJsonEntries (toJsonEntries es) = .ok es := by
  induction es with
  | nil => rfl
  | cons q qs ih =>
    obtain ⟨k, v⟩ := q
    rw [toJsonEntries, fromJsonEntries, h (k, v) (List.mem_cons_self _ _),
      ih (fun p hp => h p (List.mem_cons_of_mem _ hp))]

theorem fromJsonList_err {js : List JSON}
    (h : ∃ j ∈ js, ∃ e, rpc_object_from_json j = .error e) :
    ∃ e, fromJsonList js = .error e := by
  induction js with
  | nil => obtain ⟨j, hj, _⟩ := h; cases hj
  | cons j js ih =>
    rw [fromJsonList]
    obtain ⟨j0, hj0, e0, he0⟩ := h
    rcases List.mem_cons.mp hj0 with rfl | hj0
    · rw [he0]
      exact ⟨e0, rfl⟩
    · cases hj : rpc_object_from_json j with
      | error e => exact ⟨e, rfl⟩
      | ok v =>
        obtain ⟨e, he⟩ := ih ⟨j0, hj0, e0, he0⟩
        rw [he]
        exact ⟨e, rfl⟩

theorem fromJsonEntries_err {es : List (String × JSON)}
    (h : ∃ p ∈ es, ∃ e, rpc_object_from_json p.2 = .error e) :
    ∃ e, fromJsonEntries es = .error e := by
  induction es with
  | nil => obtain ⟨p, hp, _⟩ := h; cases hp
  | cons q qs ih =>
    obtain ⟨k, j⟩ := q
    rw [fromJsonEntries]
    obtain ⟨p0, hp0, e0, he0⟩ := h
    rcases List.mem_cons.mp hp0 with rfl | hp0
    · rw [he0]
      exact ⟨e0, rfl⟩
    · cases hj : rpc_object_from_json j with
      | error e => exact ⟨e, rfl⟩
      | ok v =>
        obtain ⟨e, he⟩ := ih ⟨p0, hp0, e0, he0⟩
        rw [he]
        exact ⟨e, rfl⟩

theorem isSigilKey_false {k : String} (h : isSigilKey k = false) :
    ¬ k = "$uint" ∧ ¬ k = "$date" ∧ ¬ k = "$binary" ∧ ¬ k = "$fd" ∧
    ¬ k = "$error" := by
  simp [isSigilKey] at h
  tauto

theorem fromJson_binary_sigil (js : List JSON) :
    rpc_object_from_json (.obj [("$binary", .arr js)]) =
      match decodeBytes js with
      | some bs => .ok (.binary bs)
      | none => .error "invalid $binary payload" := by
  rw [rpc_object_from_json]
  rw [if_neg (by decide), if_neg (by decide), if_pos rfl]

theorem fromJson_obj_single_nonsigil (k : String) (j : JSON)
    (h1 : ¬ k = "$uint") (h2 : ¬ k = "$date") (h3 : ¬ k = "$binary")
    (h4 : ¬ k = "$fd") (h5 : ¬ k = "$error") :
    rpc_object_from_json (.obj [(k, j)]) =
      match rpc_object_from_json j with
      | .ok v => .ok (.dictionary [(k, v)])
      | .error e => .error e := by
  cases j <;> simp [rpc_object_from_json, h1, h2, h3, h4, h5]

theorem sizeOf_snd_lt {p : String × RPCObject}
    {es : List (String × RPCObject)} (hp : p ∈ es) :
    sizeOf p.2 < 1 + sizeOf es := by
  have h1 := List.sizeOf_lt_of_mem hp
  obtain ⟨k, v⟩ := p
  simp at h1 ⊢
  omega

theorem roundtrip_ok (x : RPCObject) (hf : noFd x = true)
    (hs : noSigil x = true) :
    rpc_object_from_json (rpc_object_to_json x) = .ok x := by
  match x with
  | .null => rfl
  | .bool b => rfl
  | .uint64 v => simp [rpc_object_to_json, rpc_object_from_json]
  | .int64 v => rfl
  | .double d => rfl
  | .date t => rfl
  | .string s => rfl
  | .binary bs =>
    rw [rpc_object_to_json, fromJson_binary_sigil, decodeBytes_map]
  | .fd n => cases hf
  | .array xs =>
    rw [noFd] at hf
    rw [noSigil] at hs
    have ih : ∀ y ∈ xs, rpc_object_from_json (rpc_object_to_json y) = .ok y :=
      fun y hy => roundtrip_ok y (noFdList_mem hf y hy) (noSigilList_mem hs y hy)
    rw [rpc_object_to_json, rpc_object_from_json, fromJsonList_roundtrip ih]
  | .dictionary [] => rfl
  | .dictionary [(k, v)] =>
    rw [noFd] at hf
    rw [noSigil, Bool.and_eq_true] at hs
    have hknot : isSigilKey k = false := by
      have := hs.1
      simp at this
      simp [this]
    obtain ⟨h1, h2, h3, h4, h5⟩ := isSigilKey_false hknot
    have hv : rpc_object_from_json (rpc_object_to_json v) = .ok v :=
      roundtrip_ok v (noFdEntries_mem hf (k, v) (List.mem_cons_self _ _))
        (noSigilEntries_mem hs.2 (k, v) (List.mem_cons_self _ _))
    rw [rpc_object_to_json, toJsonEntries, toJsonEntries]
    rw [fromJson_obj_single_nonsigil k _ h1 h2 h3 h4 h5, hv]
  | .dictionary (p :: q :: rest) =>
    rw [noFd] at hf
    rw [noSigil, Bool.and_eq_true] at hs
    have ih : ∀ r ∈ p :: q :: rest,
        rpc_object_from_json (rpc_object_to_json r.2) = .ok r.2 :=
      fun r hr => roundtrip_ok r.2 (noFdEntries_mem hf r hr)
        (noSigilEntries_mem hs.2 r hr)
    obtain ⟨k1, v1⟩ := p
    obtain ⟨k2, v2⟩ := q
    rw [rpc_object_to_json, toJsonEntries, toJsonEntries]
    have := fromJsonEntries_roundtrip ih
    rw [toJsonEntries, toJsonEntries] at this
    rw [rpc_object_from_json, this]
    all_goals exact fun k j hcontra => by simp at hcontra
  | .error c m none none => rfl
  | .error c m (some e) none =>
    rw [noFd] at hf
    rw [noSigil] at hs
    simp only [noFdOpt, noSigilOpt, Bool.and_eq_true] at hf hs
    have he : rpc_object_from_json (rpc_object_to_json e) = .ok e :=
      roundtrip_ok e hf.1 hs.1
    rw [rpc_object_to_json, toJsonField, toJsonField]
    rw [rpc_object_from_json]
    simp only [List.append_nil, List.cons_append, List.nil_append]
    rw [fromJsonErrorFields, he]
    rw [if_neg (by decide), if_neg (by decide), if_neg (by decide),
      if_neg (by decide), if_pos trivial]
  | .error c m none (some s2) =>
    rw [noFd] at hf
    rw [noSigil] at hs
    simp only [noFdOpt, noSigilOpt, Bool.and_eq_true] at hf hs
    have hs2 : rpc_object_from_json (rpc_object_to_json s2) = .ok s2 :=
      roundtrip_ok s2 hf.2 hs.2
    rw [rpc_object_to_json, toJsonField, toJsonField]
    rw [rpc_object_from_json]
    simp only [List.append_nil, List.cons_append, List.nil_append]
    rw [fromJsonErrorFields, hs2]
    rw [if_neg (by decide), if_neg (by decide), if_neg (by decide),
      if_neg (by decide), if_pos trivial]
  | .error c m (some e) (some s2) =>
    rw [noFd] at hf
    rw [noSigil] at hs
    simp only [noFdOpt, noSigilOpt, Bool.and_eq_true] at hf hs
    have he : rpc_object_from_json (rpc_object_to_json e) = .ok e :=
      roundtrip_ok e hf.1 hs.1
    have hs2 : rpc_object_from_json (rpc_object_to_json s2) = .ok s2 :=
      roundtrip_ok s2 hf.2 hs.2
    rw [rpc_object_to_json, toJsonField, toJsonField]
    rw [rpc_object_from_json]
    simp only [List.append_nil, List.cons_append, List.nil_append]
    rw [fromJsonErrorFields, he, hs2]
    rw [if_neg (by decide), if_neg (by decide), if_neg (by decide),
      if_neg (by decide), if_pos trivial]
termination_by sizeOf x
decreasing_by
  all_goals simp_wf
  all_goals first
    | omega
    | (have h9 := List.sizeOf_lt_of_mem hy; simp at h9 ⊢; omega)
    | (have h9 := sizeOf_snd_lt hr; simp at h9 ⊢; omega)

theorem roundtrip_err (x : RPCObject) (hs : noSigil x = true)
    (hf : noFd x = false) :
    ∃ e, rpc_object_from_json (rpc_object_to_json x) = .error e := by
  match x with
  | .null => simp [noFd] at hf
  | .bool b => simp [noFd] at hf
  | .uint64 v => simp [noFd] at hf
  | .int64 v => simp [noFd] at hf
  | .double d => simp [noFd] at hf
  | .date t => simp [noFd] at hf
  | .string s => simp [noFd] at hf
  | .binary bs => simp [noFd] at hf
  | .fd n => exact ⟨"file descriptor objects cannot be decoded from JSON", rfl⟩
  | .array xs =>
    rw [noFd] at hf
    rw [noSigil] at hs
    obtain ⟨y, hy, hyf⟩ := noFdList_false hf
    obtain ⟨e0, he0⟩ := roundtrip_err y (noSigilList_mem hs y hy) hyf
    obtain ⟨e, he⟩ := fromJsonList_err
      ⟨rpc_object_to_json y, mem_toJsonList hy, e0, he0⟩
    rw [rpc_object_to_json, rpc_object_from_json, he]
    exact ⟨e, rfl⟩
  | .dictionary [] => simp [noFd, noFdEntries] at hf
  | .dictionary [(k, v)] =>
    rw [noFd] at hf
    rw [noSigil, Bool.and_eq_true] at hs
    have hknot : isSigilKey k = false := by
      have := hs.1
      simp at this
      simp [this]
    obtain ⟨h1, h2, h3, h4, h5⟩ := isSigilKey_false hknot
    have hvf : noFd v = false := by
      rw [noFdEntries, noFdEntries] at hf
      simp at hf
      exact hf
    obtain ⟨e0, he0⟩ := roundtrip_err v
      (noSigilEntries_mem hs.2 (k, v) (List.mem_cons_self _ _)) hvf
    rw [rpc_object_to_json, toJsonEntries, toJsonEntries]
    rw [fromJson_obj_single_nonsigil k _ h1 h2 h3 h4 h5, he0]
    exact ⟨e0, rfl⟩
  | .dictionary ((k1, v1) :: (k2, v2) :: rest) =>
    rw [noFd] at hf
    rw [noSigil, Bool.and_eq_true] at hs
    obtain ⟨p0, hr, hpf⟩ := noFdEntries_false hf
    obtain ⟨e0, he0⟩ := roundtrip_err p0.2 (noSigilEntries_mem hs.2 p0 hr) hpf
    obtain ⟨e, he⟩ := fromJsonEntries_err
      ⟨(p0.1, rpc_object_to_json p0.2), mem_toJsonEntries hr, e0, he0⟩
    rw [toJsonEntries, toJsonEntries] at he
    rw [rpc_object_to_json, toJsonEntries, toJsonEntries]
    rw [rpc_object_from_json, he]
    · exact ⟨e, rfl⟩
    all_goals exact fun k j hcontra => by simp at hcontra
  | .error c m none none => simp [noFd, noFdOpt] at hf
  | .error c m (some e) none =>
    rw [noFd] at hf
    rw [noSigil] at hs
    simp only [noFdOpt, noNaNOpt, noSigilOpt, Bool.and_true, Bool.and_eq_true] at hf hs
    obtain ⟨e0, he0⟩ := roundtrip_err e hs hf
    rw [rpc_object_to_json, toJsonField, toJsonField]
    rw [rpc_object_from_json]
    simp only [List.append_nil, List.cons_append, List.nil_append]
    rw [fromJsonErrorFields, he0]
    rw [if_neg (by decide), if_neg (by decide), if_neg (by decide),
      if_neg (by decide), if_pos trivial]
    exact ⟨e0, rfl⟩
  | .error c m none (some s2) =>
    rw [noFd] at hf
    rw [noSigil] at hs
    simp only [noFdOpt, noSigilOpt, Bool.true_and, Bool.and_eq_true] at hf hs
    obtain ⟨e0, he0⟩ := roundtrip_err s2 hs hf
    rw [rpc_object_to_json, toJsonField, toJsonField]
    rw [rpc_object_from_json]
    simp only [List.append_nil, List.cons_append, List.nil_append]
    rw [fromJsonErrorFields, he0]
    rw [if_neg (by decide), if_neg (by decide), if_neg (by decide),
      if_neg (by decide), if_pos trivial]
    exact ⟨e0, rfl⟩
  | .error c m (some e) (some s2) =>
    rw [noFd] at hf
    rw [noSigil] at hs
    simp only [noFdOpt, noSigilOpt, Bool.and_eq_true] at hf hs
    rw [rpc_object_to_json, toJsonField, toJsonField]
    rw [rpc_object_from_json]
    simp only [List.append_nil, List.cons_append, List.nil_append]
    cases hef : noFd e with
    | false =>
      obtain ⟨e0, he0⟩ := roundtrip_err e hs.1 hef
      rw [fromJsonErrorFields, he0]
      rw [if_neg (by decide), if_neg (by decide), if_neg (by decide),
        if_neg (by decide), if_pos trivial]
      exact ⟨e0, rfl⟩
    | true =>
      have hsf : noFd s2 = false := by
        rcases Bool.and_eq_false_iff.mp hf with h | h
        · rw [hef] at h; cases h
        · exact h
      have heok := roundtrip_ok e hef hs.1
      obtain ⟨e0, he0⟩ := roundtrip_err s2 hs.2 hsf
      rw [fromJsonErrorFields, heok, he0]
      rw [if_neg (by decide), if_neg (by decide), if_neg (by decide),
        if_neg (by decide), if_pos trivial]
      exact ⟨e0, rfl⟩
termination_by sizeOf x
decreasing_by
  all_goals simp_wf
  all_goals first
    | omega
    | (have h9 := List.sizeOf_lt_of_mem hy; simp at h9 ⊢; omega)
    | (have h9 := sizeOf_snd_lt hr; simp at h9 ⊢; omega)

/-- Claim C1, amended — JSON round-trip: for every Object x containing no
Fd (or Shmem) variant and no single-entry dictionary whose key is a
reserved sigil, deserializing the serialization of x yields x; for every
sigil-free Object that does contain an Fd, the round-trip fails
gracefully with a documented Error.  (The amendment excludes
reserved-sigil dictionaries: a dictionary such as one mapping the fd
sigil key to an Int64 contains no Fd yet fails to round-trip, because the
decoder treats its encoding as a sigil.) -/
theorem rpc_json_round_trip (x : RPCObject) (hs : noSigil x = true) :
    (noFd x = true →
      rpc_object_from_json (rpc_object_to_json x) = .ok x) ∧
    (noFd x = false →
      ∃ e, rpc_object_from_json (rpc_object_to_json x) = .error e) :=
  ⟨fun hf => roundtrip_ok x hf hs, fun hf => roundtrip_err x hs hf⟩

/-- Witness for C1: a concrete sigil-free object round-trips, and a
concrete fd-holding array surfaces an Error. -/
theorem rpc_json_round_trip_witness :
    (noSigil (RPCObject.dictionary
        [("a", .array [.int64 1, .double (.fin 2), .bool true, .null]),
         ("b", .uint64 7)]) = true ∧
      rpc_object_from_json (rpc_object_to_json (RPCObject.dictionary
        [("a", .array [.int64 1, .double (.fin 2), .bool true, .null]),
         ("b", .uint64 7)])) = .ok (RPCObject.dictionary
        [("a", .array [.int64 1, .double (.fin 2), .bool true, .null]),
         ("b", .uint64 7)])) ∧
    (noFd (RPCObject.array [.fd 3]) = false ∧
      ∃ e, rpc_object_from_json
        (rpc_object_to_json (RPCObject.array [.fd 3])) = .error e) :=
  ⟨⟨by decide,
    (rpc_json_round_trip (RPCObject.dictionary
        [("a", .array [.int64 1, .double (.fin 2), .bool true, .null]),
         ("b", .uint64 7)]) (by decide)).1 (by decide)⟩,
   ⟨by decide,
    (rpc_json_round_trip (RPCObject.array [.fd 3]) (by decide)).2
      (by decide)⟩⟩

/-- Counterexample to claim C1 as stated: a dictionary whose only key is
the fd sigil contains neither Fd nor Shmem, yet deserializing its
serialization does not return the dictionary (the decoder reports an
Error for the sigil). -/
theorem rpc_json_round_trip_cex :
    noFd (RPCObject.dictionary [("$fd", .int64 3)]) = true ∧
    rpc_object_from_json (rpc_object_to_json
        (RPCObject.dictionary [("$fd", .int64 3)])) ≠
      Except.ok (RPCObject.dictionary [("$fd", .int64 3)]) :=
  ⟨by decide, fun h => Except.noConfusion h⟩

theorem charNat_inj {a b : Char} (h : a.toNat = b.toNat) : a = b :=
  Char.ext (UInt32.ext h)

theorem lexLe_total (as bs : List Char) :
    lexLe as bs = true ∨ lexLe bs as = true := by
  induction as generalizing bs with
  | nil => left; rfl
  | cons a as ih =>
    cases bs with
    | nil => right; rfl
    | cons b bs =>
      by_cases h1 : a.toNat < b.toNat
      · left
        rw [lexLe, if_pos h1]
      · by_cases h2 : b.toNat < a.toNat
        · right
          rw [lexLe, if_pos h2]
        · rcases ih bs with h | h
          · left
            rw [lexLe, if_neg h1, if_neg h2]
            exact h
          · right
            rw [lexLe, if_neg h2, if_neg h1]
            exact h

theorem lexLe_trans :
    ∀ as bs cs : List Char,
      lexLe as bs = true → lexLe bs cs = true → lexLe as cs = true
  | [], _, _, _, _ => rfl
  | a :: as, [], cs, h1, _ => by rw [lexLe] at h1; exact Bool.noConfusion h1
  | a :: as, b :: bs, [], _, h2 => by
    rw [lexLe] at h2; exact Bool.noConfusion h2
  | a :: as, b :: bs, c :: cs, h1, h2 => by
    rw [lexLe] at h1 h2 ⊢
    by_cases hba : b.toNat < a.toNat
    · rw [if_neg (by omega), if_pos hba] at h1
      exact Bool.noConfusion h1
    · by_cases hcb : c.toNat < b.toNat
      · rw [if_neg (by omega), if_pos hcb] at h2
        exact Bool.noConfusion h2
      · by_cases hab : a.toNat < b.toNat
        · rw [if_pos (by omega)]
        · by_cases hbc : b.toNat < c.toNat
          · rw [if_pos (by omega)]
          · rw [if_neg hab, if_neg hba] at h1
            rw [if_neg hbc, if_neg hcb] at h2
            rw [if_neg (by omega), if_neg (by omega)]
            exact lexLe_trans as bs cs h1 h2

theorem lexLe_antisymm :
    ∀ as bs : List Char,
      lexLe as bs = true → lexLe bs as = true → as = bs
  | [], [], _, _ => rfl
  | [], b :: bs, _, h2 => by rw [lexLe] at h2; exact Bool.noConfusion h2
  | a :: as, [], h1, _ => by rw [lexLe] at h1; exact Bool.noConfusion h1
  | a :: as, b :: bs, h1, h2 => by
    rw [lexLe] at h1 h2
    by_cases hab : a.toNat < b.toNat
    · rw [if_neg (by omega), if_pos hab] at h2
      exact Bool.noConfusion h2
    · by_cases hba : b.toNat < a.toNat
      · rw [if_neg hab, if_pos hba] at h1
        exact Bool.noConfusion h1
      · rw [if_neg hab, if_neg hba] at h1
        rw [if_neg hba, if_neg hab] at h2
        have hc : a = b := charNat_inj (by omega)
        rw [hc, lexLe_antisymm as bs h1 h2]

theorem strLe_antisymm {s t : String} (h1 : strLe s t = true)
    (h2 : strLe t s = true) : s = t :=
  String.ext (lexLe_antisymm s.data t.data h1 h2)

instance : IsTotal (String × RPCObject) keyLe :=
  ⟨fun p q => lexLe_total p.1.data q.1.data⟩

instance : IsTrans (String × RPCObject) keyLe :=
  ⟨fun a b c h1 h2 => lexLe_trans a.1.data b.1.data c.1.data h1 h2⟩

instance : IsAntisymm (String × RPCObject) keyLt :=
  ⟨fun a b h1 h2 => absurd (strLe_antisymm h1.1 h2.1) h1.2⟩

theorem lexCmp_self : ∀ as : List Char, lexCmp as as = 0
  | [] => rfl
  | a :: as => by
    rw [lexCmp, if_neg (by omega), if_neg (by omega)]
    exact lexCmp_self as

theorem lexCmp_eq_zero_iff :
    ∀ as bs : List Char, lexCmp as bs = 0 ↔ as = bs
  | [], [] => by simp [lexCmp]
  | [], b :: bs => by simp [lexCmp]
  | a :: as, [] => by simp [lexCmp]
  | a :: as, b :: bs => by
    rw [lexCmp]
    by_cases h1 : a.toNat < b.toNat
    · rw [if_pos h1]
      constructor
      · intro h; exact absurd h (by decide)
      · intro h
        rw [List.cons.injEq] at h
        exact absurd (congrArg Char.toNat h.1) (by omega)
    · by_cases h2 : b.toNat < a.toNat
      · rw [if_neg h1, if_pos h2]
        constructor
        · intro h; exact absurd h (by decide)
        · intro h
          rw [List.cons.injEq] at h
          exact absurd (congrArg Char.toNat h.1) (by omega)
      · rw [if_neg h1, if_neg h2, lexCmp_eq_zero_iff as bs]
        constructor
        · intro h
          rw [List.cons.injEq]
          exact ⟨charNat_inj (by omega), h⟩
        · intro h
          rw [List.cons.injEq] at h
          exact h.2

theorem scmp_eq_zero_iff (s t : String) : scmp s t = 0 ↔ s = t := by
  rw [scmp, lexCmp_eq_zero_iff]
  constructor
  · exact String.ext
  · intro h; rw [h]

theorem natListCmp_eq_zero_iff :
    ∀ as bs : List Nat, natListCmp as bs = 0 ↔ as = bs
  | [], [] => by simp [natListCmp]
  | [], b :: bs => by simp [natListCmp]
  | a :: as, [] => by simp [natListCmp]
  | a :: as, b :: bs => by
    rw [natListCmp]
    by_cases h1 : a < b
    · rw [if_pos h1]
      constructor
      · intro h; exact absurd h (by decide)
      · intro h
        rw [List.cons.injEq] at h
        omega
    · by_cases h2 : b < a
      · rw [if_neg h1, if_pos h2]
        constructor
        · intro h; exact absurd h (by decide)
        · intro h
          rw [List.cons.injEq] at h
          omega
      · rw [if_neg h1, if_neg h2, natListCmp_eq_zero_iff as bs]
        constructor
        · intro h
          rw [List.cons.injEq]
          exact ⟨by omega, h⟩
        · intro h
          rw [List.cons.injEq] at h
          exact h.2

theorem dcmp_eq_zero_iff {a b : Dbl} (ha : a ≠ .nan) (hb : b ≠ .nan) :
    dcmp a b = 0 ↔ a = b := by
  cases a with
  | nan => exact absurd rfl ha
  | fin v =>
    cases b with
    | nan => exact absurd rfl hb
    | fin w =>
      rw [dcmp, icmpInt_eq_zero_iff]
      simp

theorem alookup_eq_some_mem :
    ∀ {es : List (String × RPCObject)} {k : String} {v : RPCObject},
      alookup k es = some v → (k, v) ∈ es := by
  intro es
  induction es with
  | nil => intro k v h; rw [alookup] at h; exact Option.noConfusion h
  | cons q rest ih =>
    obtain ⟨k2, w⟩ := q
    intro k v h
    rw [alookup] at h
    by_cases hk : (k2 == k) = true
    · rw [if_pos hk] at h
      have : w = v := Option.some.inj h
      have hke : k2 = k := eq_of_beq hk
      rw [← this, ← hke]
      exact List.mem_cons_self _ _
    · rw [if_neg hk] at h
      exact List.mem_cons_of_mem _ (ih h)

theorem any_key_false {es : List (String × RPCObject)} {k : String}
    (h : es.any (fun q => q.1 == k) = false) :
    ∀ q ∈ es, q.1 ≠ k := by
  intro q hq he
  have : es.any (fun q => q.1 == k) = true :=
    List.any_eq_true.mpr ⟨q, hq, by rw [he]; exact beq_self_eq_true k⟩
  rw [this] at h
  exact Bool.noConfusion h

theorem mem_alookup :
    ∀ {es : List (String × RPCObject)}, nodupKeys es = true →
      ∀ {k : String} {v : RPCObject}, (k, v) ∈ es → alookup k es = some v := by
  intro es
  induction es with
  | nil => intro _ k v hm; cases hm
  | cons q rest ih =>
    obtain ⟨k2, w⟩ := q
    intro hnd k v hm
    rw [nodupKeys, Bool.and_eq_true] at hnd
    have hany : rest.any (fun q => q.1 == k2) = false := by
      have := hnd.1
      cases hh : rest.any (fun q => q.1 == k2) with
      | false => rfl
      | true => rw [hh] at this; exact Bool.noConfusion this
    rcases List.mem_cons.mp hm with he | hm2
    · rw [Prod.mk.injEq] at he
      rw [alookup, if_pos (by rw [he.1]; exact beq_self_eq_true k2), he.2]
    · rw [alookup]
      by_cases hk : (k2 == k) = true
      · exact absurd (eq_of_beq hk).symm (any_key_false hany (k, v) hm2)
      · rw [if_neg hk]
        exact ih hnd.2 hm2

theorem nodupKeys_keys_nodup :
    ∀ {es : List (String × RPCObject)}, nodupKeys es = true →
      (es.map Prod.fst).Nodup := by
  intro es
  induction es with
  | nil => intro _; exact List.nodup_nil
  | cons q rest ih =>
    obtain ⟨k, v⟩ := q
    intro hnd
    rw [nodupKeys, Bool.and_eq_true] at hnd
    have hany : rest.any (fun q => q.1 == k) = false := by
      have := hnd.1
      cases hh : rest.any (fun q => q.1 == k) with
      | false => rfl
      | true => rw [hh] at this; exact Bool.noConfusion this
    rw [List.map_cons, List.nodup_cons]
    constructor
    · intro hk
      obtain ⟨q2, hq2, he⟩ := List.mem_map.mp hk
      exact any_key_false hany q2 hq2 he
    · exact ih hnd.2

theorem noNaNList_mem {xs : List RPCObject} (h : noNaNList xs = true) :
    ∀ x ∈ xs, noNaN x = true := by
  induction xs with
  | nil => intro x hx; cases hx
  | cons y ys ih =>
    rw [noNaNList, Bool.and_eq_true] at h
    intro x hx
    rcases List.mem_cons.mp hx with rfl | hx
    · exact h.1
    · exact ih h.2 x hx

theorem noNaNEntries_mem {es : List (String × RPCObject)}
    (h : noNaNEntries es = true) : ∀ p ∈ es, noNaN p.2 = true := by
  induction es with
  | nil => intro p hp; cases hp
  | cons q qs ih =>
    obtain ⟨k, v⟩ := q
    rw [noNaNEntries, Bool.and_eq_true] at h
    intro p hp
    rcases List.mem_cons.mp hp with rfl | hp
    · exact h.1
    · exact ih h.2 p hp

theorem wfList_mem {xs : List RPCObject} (h : wfList xs = true) :
    ∀ x ∈ xs, wf x = true := by
  induction xs with
  | nil => intro x hx; cases hx
  | cons y ys ih =>
    rw [wfList, Bool.and_eq_true] at h
    intro x hx
    rcases List.mem_cons.mp hx with rfl | hx
    · exact h.1
    · exact ih h.2 x hx

theorem wfEntries_mem {es : List (String × RPCObject)}
    (h : wfEntries es = true) : ∀ p ∈ es, wf p.2 = true := by
  induction es with
  | nil => intro p hp; cases hp
  | cons q qs ih =>
    obtain ⟨k, v⟩ := q
    rw [wfEntries, Bool.and_eq_true] at h
    intro p hp
    rcases List.mem_cons.mp hp with rfl | hp
    · exact h.1
    · exact ih h.2 p hp

theorem equalEntries_mem :
    ∀ {es fs : List (String × RPCObject)}, equalEntries es fs = true →
      ∀ p ∈ es, ∃ w, alookup p.1 fs = some w ∧ rpc_equal p.2 w = true := by
  intro es fs
  induction es with
  | nil => intro _ p hp; cases hp
  | cons q rest ih =>
    obtain ⟨k, v⟩ := q
    intro h p hp
    rw [equalEntries, Bool.and_eq_true] at h
    rcases List.mem_cons.mp hp with rfl | hp2
    · have h1 := h.1
      cases halo : alookup k fs with
      | none => rw [halo] at h1; exact Bool.noConfusion h1
      | some w =>
        rw [halo] at h1
        exact ⟨w, rfl, h1⟩
    · exact ih h.2 p hp2

theorem equalEntries_intro :
    ∀ {es fs : List (String × RPCObject)},
      (∀ p ∈ es, ∃ w, alookup p.1 fs = some w ∧ rpc_equal p.2 w = true) →
      equalEntries es fs = true := by
  intro es fs
  induction es with
  | nil => intro _; rfl
  | cons q rest ih =>
    obtain ⟨k, v⟩ := q
    intro h
    rw [equalEntries, Bool.and_eq_true]
    obtain ⟨w, hw, he⟩ := h (k, v) (List.mem_cons_self _ _)
    constructor
    · rw [hw]
      exact he
    · exact ih (fun p hp => h p (List.mem_cons_of_mem _ hp))

theorem keys_sortAllEntries :
    ∀ es : List (String × RPCObject),
      (sortAllEntries es).map Prod.fst = es.map Prod.fst
  | [] => rfl
  | (k, v) :: es => by
    rw [sortAllEntries, List.map_cons, List.map_cons,
      keys_sortAllEntries es]

theorem length_sortAllEntries :
    ∀ es : List (String × RPCObject),
      (sortAllEntries es).length = es.length
  | [] => rfl
  | (k, v) :: es => by
    rw [sortAllEntries, List.length_cons, List.length_cons,
      length_sortAllEntries es]

theorem mem_sortAllEntries_of_mem :
    ∀ {es : List (String × RPCObject)} {k : String} {v : RPCObject},
      (k, v) ∈ es → (k, sortAll v) ∈ sortAllEntries es := by
  intro es
  induction es with
  | nil => intro k v h; cases h
  | cons q rest ih =>
    obtain ⟨k2, w⟩ := q
    intro k v h
    rw [sortAllEntries]
    rcases List.mem_cons.mp h with he | hm
    · rw [Prod.mk.injEq] at he
      rw [he.1, he.2]
      exact List.mem_cons_self _ _
    · exact List.mem_cons_of_mem _ (ih hm)

theorem mem_sortAllEntries_dest :
    ∀ {es : List (String × RPCObject)} {q : String × RPCObject},
      q ∈ sortAllEntries es →
      ∃ k v, (k, v) ∈ es ∧ q = (k, sortAll v) := by
  intro es
  induction es with
  | nil => intro q h; cases h
  | cons p rest ih =>
    obtain ⟨k2, w⟩ := p
    intro q h
    rw [sortAllEntries] at h
    rcases List.mem_cons.mp h with he | hm
    · exact ⟨k2, w, List.mem_cons_self _ _, he⟩
    · obtain ⟨k, v, hm2, he⟩ := ih hm
      exact ⟨k, v, List.mem_cons_of_mem _ hm2, he⟩

theorem iteChain4_eq_zero_iff (c cm ce cs : Int) :
    (if c = 0 then (if cm = 0 then (if ce = 0 then cs else ce) else cm)
      else c) = 0 ↔ (c = 0 ∧ cm = 0 ∧ ce = 0 ∧ cs = 0) := by
  by_cases h1 : c = 0 <;> by_cases h2 : cm = 0 <;> by_cases h3 : ce = 0 <;>
    simp [h1, h2, h3]

theorem cmpPreList_eq_zero_iff :
    ∀ {xs ys : List RPCObject},
      (∀ x ∈ xs, ∀ y, noNaN x = true → noNaN y = true →
        (cmpPre x y = 0 ↔ x = y)) →
      noNaNList xs = true → noNaNList ys = true →
      (cmpPreList xs ys = 0 ↔ xs = ys) := by
  intro xs
  induction xs with
  | nil =>
    intro ys _ _ _
    cases ys with
    | nil => simp [cmpPreList]
    | cons y ys => simp [cmpPreList]
  | cons x xs ih =>
    intro ys IH hx hy
    cases ys with
    | nil => simp [cmpPreList]
    | cons y ys =>
      rw [noNaNList, Bool.and_eq_true] at hx hy
      have hxy := IH x (List.mem_cons_self _ _) y hx.1 hy.1
      have hrest := ih (fun x hmem => IH x (List.mem_cons_of_mem _ hmem))
        hx.2 hy.2
      simp only [cmpPreList]
      by_cases hc : cmpPre x y = 0
      · rw [if_pos hc, hrest, List.cons.injEq]
        constructor
        · intro h
          exact ⟨hxy.mp hc, h⟩
        · intro h
          exact h.2
      · rw [if_neg hc]
        refine iff_of_false hc ?_
        intro h
        rw [List.cons.injEq] at h
        exact hc (hxy.mpr h.1)

theorem cmpPreEntries_eq_zero_iff :
    ∀ {es fs : List (String × RPCObject)},
      (∀ p ∈ es, ∀ w, noNaN p.2 = true → noNaN w = true →
        (cmpPre p.2 w = 0 ↔ p.2 = w)) →
      noNaNEntries es = true → noNaNEntries fs = true →
      (cmpPreEntries es fs = 0 ↔ es = fs) := by
  intro es
  induction es with
  | nil =>
    intro fs _ _ _
    cases fs with
    | nil => simp [cmpPreEntries]
    | cons q fs => simp [cmpPreEntries]
  | cons p ps ih =>
    intro fs IH hx hy
    obtain ⟨k1, v1⟩ := p
    cases fs with
    | nil => simp [cmpPreEntries]
    | cons q qs =>
      obtain ⟨k2, v2⟩ := q
      rw [noNaNEntries, Bool.and_eq_true] at hx hy
      have hxy := IH (k1, v1) (List.mem_cons_self _ _) v2 hx.1 hy.1
      have hrest := ih (fun p hmem => IH p (List.mem_cons_of_mem _ hmem))
        hx.2 hy.2
      simp only [cmpPreEntries]
      by_cases hk : scmp k1 k2 = 0
      · rw [if_pos hk]
        have hke : k1 = k2 := (scmp_eq_zero_iff k1 k2).mp hk
        by_cases hv : cmpPre v1 v2 = 0
        · rw [if_pos hv, hrest, List.cons.injEq, Prod.mk.injEq]
          constructor
          · intro h
            exact ⟨⟨hke, hxy.mp hv⟩, h⟩
          · intro h
            exact h.2
        · rw [if_neg hv]
          refine iff_of_false hv ?_
          intro h
          rw [List.cons.injEq, Prod.mk.injEq] at h
          exact hv (hxy.mpr h.1.2)
      · rw [if_neg hk]
        refine iff_of_false hk ?_
        intro h
        rw [List.cons.injEq, Prod.mk.injEq] at h
        exact hk ((scmp_eq_zero_iff k1 k2).mpr h.1.1)

theorem cmpPreOpt_eq_zero_iff :
    ∀ {o1 o2 : Option RPCObject},
      (∀ x, o1 = some x → ∀ y, noNaN x = true → noNaN y = true →
        (cmpPre x y = 0 ↔ x = y)) →
      noNaNOpt o1 = true → noNaNOpt o2 = true →
      (cmpPreOpt o1 o2 = 0 ↔ o1 = o2) := by
  intro o1 o2 IH h1 h2
  cases o1 with
  | none =>
    cases o2 with
    | none => simp [cmpPreOpt]
    | some y => simp [cmpPreOpt]
  | some x =>
    cases o2 with
    | none => simp [cmpPreOpt]
    | some y =>
      rw [noNaNOpt] at h1 h2
      have := IH x rfl y h1 h2
      rw [show cmpPreOpt (some x) (some y) = cmpPre x y from rfl, this]
      simp

theorem cmpPre_eq_zero_iff :
    ∀ a b : RPCObject, noNaN a = true → noNaN b = true →
      (cmpPre a b = 0 ↔ a = b)
  | .null, b, ha, hb => by
    cases b
    case null => exact iff_of_true rfl rfl
    all_goals
      refine iff_of_false ?_ (fun h => RPCObject.noConfusion h)
      all_goals intro h
      all_goals first
        | exact Int.noConfusion h
        | exact Nat.noConfusion (Int.ofNat.inj h)
  | .bool x, b, ha, hb => by
    cases b
    case bool y =>
      rw [show cmpPre (.bool x) (.bool y) = icmpNat x.toNat y.toNat from rfl,
        icmpNat_eq_zero_iff]
      cases x <;> cases y <;> simp
    all_goals
      refine iff_of_false ?_ (fun h => RPCObject.noConfusion h)
      all_goals intro h
      all_goals first
        | exact Int.noConfusion h
        | exact Nat.noConfusion (Int.ofNat.inj h)
  | .uint64 v, b, ha, hb => by
    cases b
    case uint64 w =>
      rw [show cmpPre (.uint64 v) (.uint64 w) = icmpNat v w from rfl,
        icmpNat_eq_zero_iff]
      simp
    all_goals
      refine iff_of_false ?_ (fun h => RPCObject.noConfusion h)
      all_goals intro h
      all_goals first
        | exact Int.noConfusion h
        | exact Nat.noConfusion (Int.ofNat.inj h)
  | .int64 v, b, ha, hb => by
    cases b
    case int64 w =>
      rw [show cmpPre (.int64 v) (.int64 w) = icmpInt v w from rfl,
        icmpInt_eq_zero_iff]
      simp
    all_goals
      refine iff_of_false ?_ (fun h => RPCObject.noConfusion h)
      all_goals intro h
      all_goals first
        | exact Int.noConfusion h
        | exact Nat.noConfusion (Int.ofNat.inj h)
  | .double d, b, ha, hb => by
    cases b
    case double e =>
      cases d with
      | nan => simp [noNaN] at ha
      | fin v =>
        cases e with
        | nan => simp [noNaN] at hb
        | fin w =>
          rw [show cmpPre (.double (.fin v)) (.double (.fin w)) =
            icmpInt v w from rfl, icmpInt_eq_zero_iff]
          simp
    all_goals
      refine iff_of_false ?_ (fun h => RPCObject.noConfusion h)
      all_goals intro h
      all_goals first
        | exact Int.noConfusion h
        | exact Nat.noConfusion (Int.ofNat.inj h)
  | .date t, b, ha, hb => by
    cases b
    case date u =>
      rw [show cmpPre (.date t) (.date u) = icmpInt t u from rfl,
        icmpInt_eq_zero_iff]
      simp
    all_goals
      refine iff_of_false ?_ (fun h => RPCObject.noConfusion h)
      all_goals intro h
      all_goals first
        | exact Int.noConfusion h
        | exact Nat.noConfusion (Int.ofNat.inj h)
  | .string s, b, ha, hb => by
    cases b
    case string t =>
      rw [show cmpPre (.string s) (.string t) = scmp s t from rfl,
        scmp_eq_zero_iff]
      simp
    all_goals
      refine iff_of_false ?_ (fun h => RPCObject.noConfusion h)
      all_goals intro h
      all_goals first
        | exact Int.noConfusion h
        | exact Nat.noConfusion (Int.ofNat.inj h)
  | .binary bs, b, ha, hb => by
    cases b
    case binary cs =>
      rw [show cmpPre (.binary bs) (.binary cs) = natListCmp bs cs from rfl,
        natListCmp_eq_zero_iff]
      simp
    all_goals
      refine iff_of_false ?_ (fun h => RPCObject.noConfusion h)
      all_goals intro h
      all_goals first
        | exact Int.noConfusion h
        | exact Nat.noConfusion (Int.ofNat.inj h)
  | .fd n, b, ha, hb => by
    cases b
    case fd n2 =>
      rw [show cmpPre (.fd n) (.fd n2) = icmpInt n n2 from rfl,
        icmpInt_eq_zero_iff]
      simp
    all_goals
      refine iff_of_false ?_ (fun h => RPCObject.noConfusion h)
      all_goals intro h
      all_goals first
        | exact Int.noConfusion h
        | exact Nat.noConfusion (Int.ofNat.inj h)
  | .dictionary es, b, ha, hb => by
    cases b
    case dictionary fs =>
      rw [noNaN] at ha hb
      rw [show cmpPre (.dictionary es) (.dictionary fs) =
        cmpPreEntries es fs from rfl]
      rw [cmpPreEntries_eq_zero_iff
        (fun p hmem w hw1 hw2 => cmpPre_eq_zero_iff p.2 w hw1 hw2) ha hb]
      simp
    all_goals
      refine iff_of_false ?_ (fun h => RPCObject.noConfusion h)
      all_goals intro h
      all_goals first
        | exact Int.noConfusion h
        | exact Nat.noConfusion (Int.ofNat.inj h)
  | .array xs, b, ha, hb => by
    cases b
    case array ys =>
      rw [noNaN] at ha hb
      rw [show cmpPre (.array xs) (.array ys) = cmpPreList xs ys from rfl]
      rw [cmpPreList_eq_zero_iff
        (fun x hmem y hw1 hw2 => cmpPre_eq_zero_iff x y hw1 hw2) ha hb]
      simp
    all_goals
      refine iff_of_false ?_ (fun h => RPCObject.noConfusion h)
      all_goals intro h
      all_goals first
        | exact Int.noConfusion h
        | exact Nat.noConfusion (Int.ofNat.inj h)
  | .error c1 m1 e1 s1, b, ha, hb => by
    cases b
    case error c2 m2 e2 s2 =>
      rw [noNaN, Bool.and_eq_true] at ha hb
      rw [show cmpPre (.error c1 m1 e1 s1) (.error c2 m2 e2 s2) =
        (if icmpInt c1 c2 = 0 then
          (if scmp m1 m2 = 0 then
            (if cmpPreOpt e1 e2 = 0 then cmpPreOpt s1 s2
             else cmpPreOpt e1 e2)
           else scmp m1 m2)
         else icmpInt c1 c2) from rfl]
      rw [iteChain4_eq_zero_iff, icmpInt_eq_zero_iff, scmp_eq_zero_iff]
      rw [cmpPreOpt_eq_zero_iff
        (fun x hmem y hw1 hw2 => cmpPre_eq_zero_iff x y hw1 hw2)
        ha.1 hb.1]
      rw [cmpPreOpt_eq_zero_iff
        (fun x hmem y hw1 hw2 => cmpPre_eq_zero_iff x y hw1 hw2)
        ha.2 hb.2]
      simp
    all_goals
      refine iff_of_false ?_ (fun h => RPCObject.noConfusion h)
      all_goals intro h
      all_goals first
        | exact Int.noConfusion h
        | exact Nat.noConfusion (Int.ofNat.inj h)
termination_by a => sizeOf a
decreasing_by
  all_goals simp_wf
  all_goals first
    | omega
    | (have h9 := List.sizeOf_lt_of_mem hmem; simp at h9 ⊢; omega)
    | (have h9 := sizeOf_snd_lt hmem; simp at h9 ⊢; omega)
    | (cases hmem; simp; omega)

theorem noNaNList_intro {xs : List RPCObject}
    (h : ∀ x ∈ xs, noNaN x = true) : noNaNList xs = true := by
  induction xs with
  | nil => rfl
  | cons y ys ih =>
    rw [noNaNList, Bool.and_eq_true]
    exact ⟨h y (List.mem_cons_self _ _),
      ih (fun x hx => h x (List.mem_cons_of_mem _ hx))⟩

theorem noNaNEntries_intro {es : List (String × RPCObject)}
    (h : ∀ p ∈ es, noNaN p.2 = true) : noNaNEntries es = true := by
  induction es with
  | nil => rfl
  | cons q qs ih =>
    obtain ⟨k, v⟩ := q
    rw [noNaNEntries, Bool.and_eq_true]
    exact ⟨h (k, v) (List.mem_cons_self _ _),
      ih (fun p hp => h p (List.mem_cons_of_mem _ hp))⟩

theorem noNaNEntries_perm {es fs : List (String × RPCObject)}
    (h : es.Perm fs) :
    (noNaNEntries es = true ↔ noNaNEntries fs = true) := by
  constructor
  · intro hn
    exact noNaNEntries_intro
      (fun p hp => noNaNEntries_mem hn p (h.mem_iff.mpr hp))
  · intro hn
    exact noNaNEntries_intro
      (fun p hp => noNaNEntries_mem hn p (h.mem_iff.mp hp))

theorem noNaNList_sortAllList_iff :
    ∀ {xs : List RPCObject},
      (∀ x ∈ xs, (noNaN (sortAll x) = true ↔ noNaN x = true)) →
      (noNaNList (sortAllList xs) = true ↔ noNaNList xs = true) := by
  intro xs
  induction xs with
  | nil => intro _; exact Iff.rfl
  | cons y ys ih =>
    intro IH
    rw [sortAllList, noNaNList, noNaNList, Bool.and_eq_true,
      Bool.and_eq_true]
    exact and_congr (IH y (List.mem_cons_self _ _))
      (ih (fun x hx => IH x (List.mem_cons_of_mem _ hx)))

theorem noNaNEntries_sortAllEntries_iff :
    ∀ {es : List (String × RPCObject)},
      (∀ p ∈ es, (noNaN (sortAll p.2) = true ↔ noNaN p.2 = true)) →
      (noNaNEntries (sortAllEntries es) = true ↔ noNaNEntries es = true) := by
  intro es
  induction es with
  | nil => intro _; exact Iff.rfl
  | cons q qs ih =>
    obtain ⟨k, v⟩ := q
    intro IH
    rw [sortAllEntries, noNaNEntries, noNaNEntries, Bool.and_eq_true,
      Bool.and_eq_true]
    exact and_congr (IH (k, v) (List.mem_cons_self _ _))
      (ih (fun p hp => IH p (List.mem_cons_of_mem _ hp)))

theorem noNaNOpt_sortAllOpt_iff :
    ∀ {o : Option RPCObject},
      (∀ x, o = some x → (noNaN (sortAll x) = true ↔ noNaN x = true)) →
      (noNaNOpt (sortAllOpt o) = true ↔ noNaNOpt o = true) := by
  intro o IH
  cases o with
  | none => exact Iff.rfl
  | some x => exact IH x rfl

theorem noNaN_sortAll :
    ∀ x : RPCObject, (noNaN (sortAll x) = true ↔ noNaN x = true)
  | .null => Iff.rfl
  | .bool _ => Iff.rfl
  | .uint64 _ => Iff.rfl
  | .int64 _ => Iff.rfl
  | .double _ => Iff.rfl
  | .date _ => Iff.rfl
  | .string _ => Iff.rfl
  | .binary _ => Iff.rfl
  | .fd _ => Iff.rfl
  | .array xs => by
    rw [show sortAll (.array xs) = .array (sortAllList xs) from rfl]
    rw [show noNaN (.array (sortAllList xs)) =
      noNaNList (sortAllList xs) from rfl]
    rw [show noNaN (.array xs) = noNaNList xs from rfl]
    exact noNaNList_sortAllList_iff (fun x hmem => noNaN_sortAll x)
  | .dictionary es => by
    rw [show sortAll (.dictionary es) =
      .dictionary (List.insertionSort keyLe (sortAllEntries es)) from rfl]
    rw [show noNaN (.dictionary
        (List.insertionSort keyLe (sortAllEntries es))) =
      noNaNEntries (List.insertionSort keyLe (sortAllEntries es)) from rfl]
    rw [show noNaN (.dictionary es) = noNaNEntries es from rfl]
    exact Iff.trans
      (noNaNEntries_perm (List.perm_insertionSort keyLe (sortAllEntries es)))
      (noNaNEntries_sortAllEntries_iff (fun p hmem => noNaN_sortAll p.2))
  | .error c m ex st => by
    rw [show sortAll (.error c m ex st) =
      .error c m (sortAllOpt ex) (sortAllOpt st) from rfl]
    rw [show noNaN (.error c m (sortAllOpt ex) (sortAllOpt st)) =
      (noNaNOpt (sortAllOpt ex) && noNaNOpt (sortAllOpt st)) from rfl]
    rw [show noNaN (.error c m ex st) =
      (noNaNOpt ex && noNaNOpt st) from rfl]
    rw [Bool.and_eq_true, Bool.and_eq_true]
    exact and_congr
      (noNaNOpt_sortAllOpt_iff (fun x hmem => noNaN_sortAll x))
      (noNaNOpt_sortAllOpt_iff (fun x hmem => noNaN_sortAll x))
termination_by x => sizeOf x
decreasing_by
  all_goals simp_wf
  all_goals first
    | omega
    | (have h9 := List.sizeOf_lt_of_mem hmem; simp at h9 ⊢; omega)
    | (have h9 := sizeOf_snd_lt hmem; simp at h9 ⊢; omega)
    | (cases hmem; simp; omega)

theorem natXor_left_comm (a b c : Nat) :
    Nat.xor a (Nat.xor b c) = Nat.xor b (Nat.xor a c) := by
  show a ^^^ (b ^^^ c) = b ^^^ (a ^^^ c)
  rw [← Nat.xor_assoc, Nat.xor_comm a b, Nat.xor_assoc]

theorem hashEntries_perm {es fs : List (String × RPCObject)}
    (h : es.Perm fs) : hashEntries es = hashEntries fs := by
  induction h with
  | nil => rfl
  | cons p _ ih =>
    obtain ⟨k, v⟩ := p
    rw [hashEntries, hashEntries, ih]
  | swap p q l =>
    obtain ⟨k1, v1⟩ := p
    obtain ⟨k2, v2⟩ := q
    rw [hashEntries, hashEntries, hashEntries, hashEntries]
    exact natXor_left_comm _ _ _
  | trans _ _ ih1 ih2 => rw [ih1, ih2]

theorem hashEntries_sortAllEntries :
    ∀ {es : List (String × RPCObject)},
      (∀ p ∈ es, rpc_hash (sortAll p.2) = rpc_hash p.2) →
      hashEntries (sortAllEntries es) = hashEntries es := by
  intro es
  induction es with
  | nil => intro _; rfl
  | cons q qs ih =>
    obtain ⟨k, v⟩ := q
    intro IH
    rw [sortAllEntries, hashEntries, hashEntries,
      IH (k, v) (List.mem_cons_self _ _),
      ih (fun p hp => IH p (List.mem_cons_of_mem _ hp))]

theorem hashList_sortAllList :
    ∀ {xs : List RPCObject},
      (∀ x ∈ xs, rpc_hash (sortAll x) = rpc_hash x) →
      hashList (sortAllList xs) = hashList xs := by
  intro xs
  induction xs with
  | nil => intro _; rfl
  | cons y ys ih =>
    intro IH
    rw [sortAllList, hashList, hashList, IH y (List.mem_cons_self _ _),
      ih (fun x hx => IH x (List.mem_cons_of_mem _ hx))]

theorem hashOpt_sortAllOpt :
    ∀ {o : Option RPCObject},
      (∀ x, o = some x → rpc_hash (sortAll x) = rpc_hash x) →
      hashOpt (sortAllOpt o) = hashOpt o := by
  intro o IH
  cases o with
  | none => rfl
  | some x =>
    rw [show sortAllOpt (some x) = some (sortAll x) from rfl, hashOpt,
      hashOpt, IH x rfl]

theorem hash_sortAll : ∀ x : RPCObject, rpc_hash (sortAll x) = rpc_hash x
  | .null => rfl
  | .bool _ => rfl
  | .uint64 _ => rfl
  | .int64 _ => rfl
  | .double _ => rfl
  | .date _ => rfl
  | .string _ => rfl
  | .binary _ => rfl
  | .fd _ => rfl
  | .array xs => by
    rw [show sortAll (.array xs) = .array (sortAllList xs) from rfl]
    rw [show rpc_hash (.array (sortAllList xs)) =
      16 + 43 * hashList (sortAllList xs) from rfl]
    rw [show rpc_hash (.array xs) = 16 + 43 * hashList xs from rfl]
    rw [hashList_sortAllList (fun x hmem => hash_sortAll x)]
  | .dictionary es => by
    rw [show sortAll (.dictionary es) =
      .dictionary (List.insertionSort keyLe (sortAllEntries es)) from rfl]
    rw [show rpc_hash (.dictionary
        (List.insertionSort keyLe (sortAllEntries es))) =
      15 + 41 * hashEntries (List.insertionSort keyLe (sortAllEntries es))
      from rfl]
    rw [show rpc_hash (.dictionary es) = 15 + 41 * hashEntries es from rfl]
    rw [hashEntries_perm (List.perm_insertionSort keyLe (sortAllEntries es)),
      hashEntries_sortAllEntries (fun p hmem => hash_sortAll p.2)]
  | .error c m ex st => by
    rw [show sortAll (.error c m ex st) =
      .error c m (sortAllOpt ex) (sortAllOpt st) from rfl]
    rw [show rpc_hash (.error c m (sortAllOpt ex) (sortAllOpt st)) =
      18 + 47 * intHash c + 53 * strHash m + 59 * hashOpt (sortAllOpt ex) +
        61 * hashOpt (sortAllOpt st) from rfl]
    rw [show rpc_hash (.error c m ex st) =
      18 + 47 * intHash c + 53 * strHash m + 59 * hashOpt ex +
        61 * hashOpt st from rfl]
    rw [hashOpt_sortAllOpt (fun x hmem => hash_sortAll x),
      hashOpt_sortAllOpt (fun x hmem => hash_sortAll x)]
termination_by x => sizeOf x
decreasing_by
  all_goals simp_wf
  all_goals first
    | omega
    | (have h9 := List.sizeOf_lt_of_mem hmem; simp at h9 ⊢; omega)
    | (have h9 := sizeOf_snd_lt hmem; simp at h9 ⊢; omega)
    | (cases hmem; simp; omega)

theorem pairwise_keyLt_of_sorted {l : List (String × RPCObject)}
    (hs : List.Sorted keyLe l) (hnd : (l.map Prod.fst).Nodup) :
    List.Sorted keyLt l := by
  have h2 : List.Pairwise (fun p q : String × RPCObject => p.1 ≠ q.1) l :=
    List.pairwise_map.mp hnd
  exact List.Pairwise.imp (fun hpq => hpq) (hs.and h2)

theorem keys_nodup_insertionSort {l : List (String × RPCObject)}
    (hnd : (l.map Prod.fst).Nodup) :
    ((List.insertionSort keyLe l).map Prod.fst).Nodup :=
  ((List.perm_insertionSort keyLe l).symm.map Prod.fst).nodup hnd

theorem sortAllList_eq_of_equalList :
    ∀ {xs ys : List RPCObject},
      (∀ x ∈ xs, ∀ y, rpc_equal x y = true → wf x = true → wf y = true →
        sortAll x = sortAll y) →
      equalList xs ys = true → wfList xs = true → wfList ys = true →
      sortAllList xs = sortAllList ys := by
  intro xs
  induction xs with
  | nil =>
    intro ys _ heq _ _
    cases ys with
    | nil => rfl
    | cons y ys => exact Bool.noConfusion heq
  | cons x xs ih =>
    intro ys IH heq hwx hwy
    cases ys with
    | nil => exact Bool.noConfusion heq
    | cons y ys =>
      rw [equalList, Bool.and_eq_true] at heq
      rw [wfList, Bool.and_eq_true] at hwx hwy
      rw [sortAllList, sortAllList,
        IH x (List.mem_cons_self _ _) y heq.1 hwx.1 hwy.1,
        ih (fun x hmem => IH x (List.mem_cons_of_mem _ hmem)) heq.2
          hwx.2 hwy.2]

theorem sortAll_dicts_eq {es fs : List (String × RPCObject)}
    (IH : ∀ p ∈ es, ∀ w, rpc_equal p.2 w = true → wf p.2 = true →
      wf w = true → sortAll p.2 = sortAll w)
    (hnes : nodupKeys es = true) (hnfs : nodupKeys fs = true)
    (hwes : wfEntries es = true) (hwfs : wfEntries fs = true)
    (hlen : es.length = fs.length) (heq : equalEntries es fs = true) :
    List.insertionSort keyLe (sortAllEntries es) =
      List.insertionSort keyLe (sortAllEntries fs) := by
  have hsub : sortAllEntries es ⊆ sortAllEntries fs := by
    intro q hq
    obtain ⟨k, v, hmem, rfl⟩ := mem_sortAllEntries_dest hq
    obtain ⟨w, hlw, hew⟩ := equalEntries_mem heq (k, v) hmem
    have hwmem : (k, w) ∈ fs := alookup_eq_some_mem hlw
    have hvw : sortAll v = sortAll w :=
      IH (k, v) hmem w hew (wfEntries_mem hwes _ hmem)
        (wfEntries_mem hwfs _ hwmem)
    rw [hvw]
    exact mem_sortAllEntries_of_mem hwmem
  have hnd : (sortAllEntries es).Nodup := by
    have h1 : ((sortAllEntries es).map Prod.fst).Nodup := by
      rw [keys_sortAllEntries]
      exact nodupKeys_keys_nodup hnes
    exact List.Nodup.of_map _ h1
  have hperm : (sortAllEntries es).Perm (sortAllEntries fs) :=
    (List.Nodup.subperm hnd hsub).perm_of_length_le
      (by rw [length_sortAllEntries, length_sortAllEntries]; omega)
  apply List.eq_of_perm_of_sorted (r := keyLt)
  · exact ((List.perm_insertionSort keyLe _).trans hperm).trans
      (List.perm_insertionSort keyLe _).symm
  · apply pairwise_keyLt_of_sorted
    · exact List.sorted_insertionSort keyLe _
    · apply keys_nodup_insertionSort
      rw [keys_sortAllEntries]
      exact nodupKeys_keys_nodup hnes
  · apply pairwise_keyLt_of_sorted
    · exact List.sorted_insertionSort keyLe _
    · apply keys_nodup_insertionSort
      rw [keys_sortAllEntries]
      exact nodupKeys_keys_nodup hnfs

theorem sortAllOpt_eq_of_equalOpt :
    ∀ {o1 o2 : Option RPCObject},
      (∀ x, o1 = some x → ∀ y, rpc_equal x y = true → wf x = true →
        wf y = true → sortAll x = sortAll y) →
      equalOpt o1 o2 = true → wfOpt o1 = true → wfOpt o2 = true →
      sortAllOpt o1 = sortAllOpt o2 := by
  intro o1 o2 IH heq h1 h2
  cases o1 with
  | none =>
    cases o2 with
    | none => rfl
    | some y => exact Bool.noConfusion heq
  | some x =>
    cases o2 with
    | none => exact Bool.noConfusion heq
    | some y =>
      rw [show sortAllOpt (some x) = some (sortAll x) from rfl,
        show sortAllOpt (some y) = some (sortAll y) from rfl,
        IH x rfl y heq h1 h2]

theorem sortAll_eq_of_equal :
    ∀ x y : RPCObject, rpc_equal x y = true → wf x = true → wf y = true →
      sortAll x = sortAll y
  | .null, y, h, hwx, hwy => by
    cases y
    case null => rfl
    all_goals exact Bool.noConfusion h
  | .bool a, y, h, hwx, hwy => by
    cases y
    case bool b =>
      have h2 : a = b := eq_of_beq h
      rw [h2]
    all_goals exact Bool.noConfusion h
  | .uint64 a, y, h, hwx, hwy => by
    cases y
    case uint64 b =>
      have h2 : a = b := eq_of_beq h
      rw [h2]
    all_goals exact Bool.noConfusion h
  | .int64 a, y, h, hwx, hwy => by
    cases y
    case int64 b =>
      have h2 : a = b := eq_of_beq h
      rw [h2]
    all_goals exact Bool.noConfusion h
  | .double d, y, h, hwx, hwy => by
    cases y
    case double e =>
      cases d with
      | nan => exact Bool.noConfusion h
      | fin v =>
        cases e with
        | nan => exact Bool.noConfusion h
        | fin w =>
          have h2 : v = w := eq_of_beq h
          rw [h2]
    all_goals exact Bool.noConfusion h
  | .date a, y, h, hwx, hwy => by
    cases y
    case date b =>
      have h2 : a = b := eq_of_beq h
      rw [h2]
    all_goals exact Bool.noConfusion h
  | .string a, y, h, hwx, hwy => by
    cases y
    case string b =>
      have h2 : a = b := eq_of_beq h
      rw [h2]
    all_goals exact Bool.noConfusion h
  | .binary a, y, h, hwx, hwy => by
    cases y
    case binary b =>
      have h2 : a = b := eq_of_beq h
      rw [h2]
    all_goals exact Bool.noConfusion h
  | .fd a, y, h, hwx, hwy => by
    cases y
    case fd b =>
      have h2 : a = b := eq_of_beq h
      rw [h2]
    all_goals exact Bool.noConfusion h
  | .array xs, y, h, hwx, hwy => by
    cases y
    case array ys =>
      rw [wf] at hwx hwy
      have h2 : equalList xs ys = true := h
      rw [show sortAll (.array xs) = .array (sortAllList xs) from rfl,
        show sortAll (.array ys) = .array (sortAllList ys) from rfl,
        sortAllList_eq_of_equalList
          (fun x hmem y he w1 w2 => sortAll_eq_of_equal x y he w1 w2)
          h2 hwx hwy]
    all_goals exact Bool.noConfusion h
  | .dictionary es, y, h, hwx, hwy => by
    cases y
    case dictionary fs =>
      rw [wf, Bool.and_eq_true] at hwx hwy
      have h2 : ((es.length == fs.length) && equalEntries es fs) = true := h
      rw [Bool.and_eq_true] at h2
      rw [show sortAll (.dictionary es) =
        .dictionary (List.insertionSort keyLe (sortAllEntries es)) from rfl,
        show sortAll (.dictionary fs) =
        .dictionary (List.insertionSort keyLe (sortAllEntries fs)) from rfl,
        sortAll_dicts_eq
          (fun p hmem w he w1 w2 => sortAll_eq_of_equal p.2 w he w1 w2)
          hwx.1 hwy.1 hwx.2 hwy.2 (eq_of_beq h2.1) h2.2]
    all_goals exact Bool.noConfusion h
  | .error c1 m1 e1 s1, y, h, hwx, hwy => by
    cases y
    case error c2 m2 e2 s2 =>
      rw [wf, Bool.and_eq_true] at hwx hwy
      have h2 : ((c1 == c2) && (m1 == m2) && equalOpt e1 e2 &&
        equalOpt s1 s2) = true := h
      rw [Bool.and_eq_true, Bool.and_eq_true, Bool.and_eq_true] at h2
      have hc : c1 = c2 := eq_of_beq h2.1.1.1
      have hm : m1 = m2 := eq_of_beq h2.1.1.2
      rw [show sortAll (.error c1 m1 e1 s1) =
        .error c1 m1 (sortAllOpt e1) (sortAllOpt s1) from rfl,
        show sortAll (.error c2 m2 e2 s2) =
        .error c2 m2 (sortAllOpt e2) (sortAllOpt s2) from rfl,
        hc, hm,
        sortAllOpt_eq_of_equalOpt
          (fun x hmem y he w1 w2 => sortAll_eq_of_equal x y he w1 w2)
          h2.1.2 hwx.1 hwy.1,
        sortAllOpt_eq_of_equalOpt
          (fun x hmem y he w1 w2 => sortAll_eq_of_equal x y he w1 w2)
          h2.2 hwx.2 hwy.2]
    all_goals exact Bool.noConfusion h
termination_by x => sizeOf x
decreasing_by
  all_goals simp_wf
  all_goals first
    | omega
    | (have h9 := List.sizeOf_lt_of_mem hmem; simp at h9 ⊢; omega)
    | (have h9 := sizeOf_snd_lt hmem; simp at h9 ⊢; omega)
    | (cases hmem; simp; omega)

theorem equalList_of_sortAllList_eq :
    ∀ {xs ys : List RPCObject},
      (∀ x ∈ xs, ∀ y, sortAll x = sortAll y → wf x = true → wf y = true →
        noNaN x = true → rpc_equal x y = true) →
      sortAllList xs = sortAllList ys → wfList xs = true →
      wfList ys = true → noNaNList xs = true → equalList xs ys = true := by
  intro xs
  induction xs with
  | nil =>
    intro ys _ h _ _ _
    cases ys with
    | nil => rfl
    | cons y ys => exact List.noConfusion h
  | cons x xs ih =>
    intro ys IH h hwx hwy hnn
    cases ys with
    | nil => exact List.noConfusion h
    | cons y ys =>
      rw [sortAllList, sortAllList, List.cons.injEq] at h
      rw [wfList, Bool.and_eq_true] at hwx hwy
      rw [noNaNList, Bool.and_eq_true] at hnn
      rw [equalList, Bool.and_eq_true]
      exact ⟨IH x (List.mem_cons_self _ _) y h.1 hwx.1 hwy.1 hnn.1,
        ih (fun x hmem => IH x (List.mem_cons_of_mem _ hmem)) h.2
          hwx.2 hwy.2 hnn.2⟩

theorem dict_equal_of_sorted_eq {es fs : List (String × RPCObject)}
    (IH : ∀ p ∈ es, ∀ w, sortAll p.2 = sortAll w → wf p.2 = true →
      wf w = true → noNaN p.2 = true → rpc_equal p.2 w = true)
    (h : List.insertionSort keyLe (sortAllEntries es) =
      List.insertionSort keyLe (sortAllEntries fs))
    (hnfs : nodupKeys fs = true) (hwes : wfEntries es = true)
    (hwfs : wfEntries fs = true) (hnn : noNaNEntries es = true) :
    ((es.length == fs.length) && equalEntries es fs) = true := by
  have hperm : (sortAllEntries es).Perm (sortAllEntries fs) := by
    have p1 := (List.perm_insertionSort keyLe (sortAllEntries es)).symm
    rw [h] at p1
    exact p1.trans (List.perm_insertionSort keyLe (sortAllEntries fs))
  rw [Bool.and_eq_true]
  constructor
  · have hl := hperm.length_eq
    rw [length_sortAllEntries, length_sortAllEntries] at hl
    exact beq_iff_eq.mpr hl
  · apply equalEntries_intro
    intro p hmem
    obtain ⟨k, v⟩ := p
    have h1 : (k, sortAll v) ∈ sortAllEntries fs :=
      hperm.mem_iff.mp (mem_sortAllEntries_of_mem hmem)
    obtain ⟨k2, w, hwmem, he⟩ := mem_sortAllEntries_dest h1
    rw [Prod.mk.injEq] at he
    have hk2 : k = k2 := he.1
    refine ⟨w, ?_, ?_⟩
    · rw [hk2]
      exact mem_alookup hnfs hwmem
    · exact IH (k, v) hmem w he.2 (wfEntries_mem hwes _ hmem)
        (wfEntries_mem hwfs _ hwmem) (noNaNEntries_mem hnn _ hmem)

theorem equalOpt_of_sortAllOpt_eq :
    ∀ {o1 o2 : Option RPCObject},
      (∀ x, o1 = some x → ∀ y, sortAll x = sortAll y → wf x = true →
        wf y = true → noNaN x = true → rpc_equal x y = true) →
      sortAllOpt o1 = sortAllOpt o2 → wfOpt o1 = true → wfOpt o2 = true →
      noNaNOpt o1 = true → equalOpt o1 o2 = true := by
  intro o1 o2 IH h h1 h2 hnn
  cases o1 with
  | none =>
    cases o2 with
    | none => rfl
    | some y => exact Option.noConfusion h
  | some x =>
    cases o2 with
    | none => exact Option.noConfusion h
    | some y =>
      have h3 : sortAll x = sortAll y := Option.some.inj h
      exact IH x rfl y h3 h1 h2 hnn

theorem equal_of_sortAll_eq :
    ∀ x y : RPCObject, sortAll x = sortAll y → wf x = true → wf y = true →
      noNaN x = true → rpc_equal x y = true
  | .null, y, h, hwx, hwy, hnn => by
    cases y
    case null => rfl
    all_goals exact RPCObject.noConfusion h
  | .bool a, y, h, hwx, hwy, hnn => by
    cases y
    case bool b =>
      have h2 : RPCObject.bool a = RPCObject.bool b := h
      rw [RPCObject.bool.injEq] at h2
      rw [h2]
      exact beq_self_eq_true b
    all_goals exact RPCObject.noConfusion h
  | .uint64 a, y, h, hwx, hwy, hnn => by
    cases y
    case uint64 b =>
      have h2 : RPCObject.uint64 a = RPCObject.uint64 b := h
      rw [RPCObject.uint64.injEq] at h2
      rw [h2]
      exact beq_self_eq_true b
    all_goals exact RPCObject.noConfusion h
  | .int64 a, y, h, hwx, hwy, hnn => by
    cases y
    case int64 b =>
      have h2 : RPCObject.int64 a = RPCObject.int64 b := h
      rw [RPCObject.int64.injEq] at h2
      rw [h2]
      exact beq_self_eq_true b
    all_goals exact RPCObject.noConfusion h
  | .double d, y, h, hwx, hwy, hnn => by
    cases y
    case double e =>
      have h2 : RPCObject.double d = RPCObject.double e := h
      rw [RPCObject.double.injEq] at h2
      rw [← h2]
      cases d with
      | nan => exact Bool.noConfusion hnn
      | fin v => exact beq_self_eq_true v
    all_goals exact RPCObject.noConfusion h
  | .date a, y, h, hwx, hwy, hnn => by
    cases y
    case date b =>
      have h2 : RPCObject.date a = RPCObject.date b := h
      rw [RPCObject.date.injEq] at h2
      rw [h2]
      exact beq_self_eq_true b
    all_goals exact RPCObject.noConfusion h
  | .string a, y, h, hwx, hwy, hnn => by
    cases y
    case string b =>
      have h2 : RPCObject.string a = RPCObject.string b := h
      rw [RPCObject.string.injEq] at h2
      rw [h2]
      exact beq_self_eq_true b
    all_goals exact RPCObject.noConfusion h
  | .binary a, y, h, hwx, hwy, hnn => by
    cases y
    case binary b =>
      have h2 : RPCObject.binary a = RPCObject.binary b := h
      rw [RPCObject.binary.injEq] at h2
      rw [h2]
      exact beq_self_eq_true b
    all_goals exact RPCObject.noConfusion h
  | .fd a, y, h, hwx, hwy, hnn => by
    cases y
    case fd b =>
      have h2 : RPCObject.fd a = RPCObject.fd b := h
      rw [RPCObject.fd.injEq] at h2
      rw [h2]
      exact beq_self_eq_true b
    all_goals exact RPCObject.noConfusion h
  | .array xs, y, h, hwx, hwy, hnn => by
    cases y
    case array ys =>
      have h2 : RPCObject.array (sortAllList xs) =
        RPCObject.array (sortAllList ys) := h
      rw [RPCObject.array.injEq] at h2
      rw [wf] at hwx hwy
      rw [noNaN] at hnn
      show equalList xs ys = true
      exact equalList_of_sortAllList_eq
        (fun x hmem y hh w1 w2 w3 => equal_of_sortAll_eq x y hh w1 w2 w3)
        h2 hwx hwy hnn
    all_goals exact RPCObject.noConfusion h
  | .dictionary es, y, h, hwx, hwy, hnn => by
    cases y
    case dictionary fs =>
      have h2 : RPCObject.dictionary
          (List.insertionSort keyLe (sortAllEntries es)) =
        RPCObject.dictionary
          (List.insertionSort keyLe (sortAllEntries fs)) := h
      rw [RPCObject.dictionary.injEq] at h2
      rw [wf, Bool.and_eq_true] at hwx hwy
      rw [noNaN] at hnn
      show ((es.length == fs.length) && equalEntries es fs) = true
      exact dict_equal_of_sorted_eq
        (fun p hmem w hh w1 w2 w3 => equal_of_sortAll_eq p.2 w hh w1 w2 w3)
        h2 hwy.1 hwx.2 hwy.2 hnn
    all_goals exact RPCObject.noConfusion h
  | .error c1 m1 e1 s1, y, h, hwx, hwy, hnn => by
    cases y
    case error c2 m2 e2 s2 =>
      have h2 : RPCObject.error c1 m1 (sortAllOpt e1) (sortAllOpt s1) =
        RPCObject.error c2 m2 (sortAllOpt e2) (sortAllOpt s2) := h
      rw [RPCObject.error.injEq] at h2
      rw [wf, Bool.and_eq_true] at hwx hwy
      rw [noNaN, Bool.and_eq_true] at hnn
      show ((c1 == c2) && (m1 == m2) && equalOpt e1 e2 &&
        equalOpt s1 s2) = true
      rw [Bool.and_eq_true, Bool.and_eq_true, Bool.and_eq_true]
      refine ⟨⟨⟨?_, ?_⟩, ?_⟩, ?_⟩
      · rw [h2.1]
        exact beq_self_eq_true c2
      · rw [h2.2.1]
        exact beq_self_eq_true m2
      · exact equalOpt_of_sortAllOpt_eq
          (fun x hmem y hh w1 w2 w3 => equal_of_sortAll_eq x y hh w1 w2 w3)
          h2.2.2.1 hwx.1 hwy.1 hnn.1
      · exact equalOpt_of_sortAllOpt_eq
          (fun x hmem y hh w1 w2 w3 => equal_of_sortAll_eq x y hh w1 w2 w3)
          h2.2.2.2 hwx.2 hwy.2 hnn.2
    all_goals exact RPCObject.noConfusion h
termination_by x => sizeOf x
decreasing_by
  all_goals simp_wf
  all_goals first
    | omega
    | (have h9 := List.sizeOf_lt_of_mem hmem; simp at h9 ⊢; omega)
    | (have h9 := sizeOf_snd_lt hmem; simp at h9 ⊢; omega)
    | (cases hmem; simp; omega)

/-- Counterexample to claim C2 as stated: two Arrays (not Doubles) each
holding a NaN Double compare as zero under rpc_cmp yet are unequal under
rpc_equal, so exempting only objects whose own type is Double is not
enough. -/
theorem rpc_cmp_equal_nan_array_cex :
    rpc_get_type (RPCObject.array [.double .nan]) ≠ .RPC_TYPE_DOUBLE ∧
    rpc_cmp (RPCObject.array [.double .nan])
      (RPCObject.array [.double .nan]) = 0 ∧
    rpc_equal (RPCObject.array [.double .nan])
      (RPCObject.array [.double .nan]) = false := by
  refine ⟨by decide, by decide, by decide⟩

/-- Claim C2, amended — comparison reflects equality: for every pair of
well-formed Objects neither of which contains a NaN Double at any depth,
rpc_cmp returns zero if and only if rpc_equal returns true.  (The NaN
exemption must cover containers holding NaN Doubles, not only objects
whose own type is Double.) -/
theorem rpc_cmp_zero_iff_equal (x y : RPCObject) (hwx : wf x = true)
    (hwy : wf y = true) (hnx : noNaN x = true) (hny : noNaN y = true) :
    rpc_cmp x y = 0 ↔ rpc_equal x y = true := by
  rw [rpc_cmp]
  rw [cmpPre_eq_zero_iff (sortAll x) (sortAll y)
    ((noNaN_sortAll x).mpr hnx) ((noNaN_sortAll y).mpr hny)]
  constructor
  · intro h
    exact equal_of_sortAll_eq x y h hwx hwy hnx
  · intro h
    exact sortAll_eq_of_equal x y h hwx hwy

/-- Witness for C2 at two concrete equal dictionaries with different
insertion orders. -/
theorem rpc_cmp_zero_iff_equal_witness :
    wf (RPCObject.dictionary [("a", .int64 1), ("b", .string "s")]) = true ∧
    ((rpc_cmp (RPCObject.dictionary [("a", .int64 1), ("b", .string "s")])
        (RPCObject.dictionary [("b", .string "s"), ("a", .int64 1)]) = 0) ↔
      (rpc_equal (RPCObject.dictionary [("a", .int64 1), ("b", .string "s")])
        (RPCObject.dictionary [("b", .string "s"), ("a", .int64 1)]) = true)) :=
  ⟨by decide,
   rpc_cmp_zero_iff_equal
     (RPCObject.dictionary [("a", .int64 1), ("b", .string "s")])
     (RPCObject.dictionary [("b", .string "s"), ("a", .int64 1)])
     (by decide) (by decide) (by decide) (by decide)⟩

/-- Claim C3 — hash is a congruence for equality: for every pair of
well-formed Objects, rpc_equal x y implies rpc_hash x = rpc_hash y; in
particular dictionaries with the same entries inserted in different
orders hash equal, because the dictionary hash is an order-independent
XOR over entries. -/
theorem rpc_equal_hash_congruence (x y : RPCObject) (hwx : wf x = true)
    (hwy : wf y = true) (h : rpc_equal x y = true) :
    rpc_hash x = rpc_hash y := by
  rw [← hash_sortAll x, ← hash_sortAll y,
    sortAll_eq_of_equal x y h hwx hwy]

/-- Witness for C3 at two concrete equal dictionaries with different
insertion orders. -/
theorem rpc_equal_hash_congruence_witness :
    rpc_equal (RPCObject.dictionary [("a", .int64 1), ("b", .string "s")])
      (RPCObject.dictionary [("b", .string "s"), ("a", .int64 1)]) = true ∧
    rpc_hash (RPCObject.dictionary [("a", .int64 1), ("b", .string "s")]) =
      rpc_hash (RPCObject.dictionary [("b", .string "s"), ("a", .int64 1)]) :=
  ⟨by decide,
   rpc_equal_hash_congruence
     (RPCObject.dictionary [("a", .int64 1), ("b", .string "s")])
     (RPCObject.dictionary [("b", .string "s"), ("a", .int64 1)])
     (by decide) (by decide) (by decide)⟩

end LibRPC
